import Mathlib

/-!
Verification of the Strong-CSV-to-Notion sync pipeline
(`strong-sync.py` and `download_strong_csv.py`).

Shallow embedding conventions:
* CSV cell values that the program parses with `float(...)` are modelled as
  `Option ℚ` (Python's empty string is falsy, hence `none`; any non-empty
  numeric string, including "0", is `some q`).  Cells used verbatim
  (`Reps`, `Notes`, `Set Order`, names, dates) stay `String`.
* Python's `//` and `%` on integers are `Int.fdiv` / `Int.fmod`
  (floor division; remainder takes the divisor's sign).
* `round(x, n)` is round-half-to-even on exact decimal values.
* `"%g"`-style float formatting is modelled for the fixed-notation regime
  (six significant digits, trailing zeros stripped, no exponent notation),
  which covers all values the pipeline formats.
* Localized datetimes are modelled as linear wall-clock seconds
  (`pytz.localize` attaches a fixed zone; `+ timedelta` is wall-clock
  arithmetic, so equality of localized datetimes is equality of the
  linear count).
* The remote Notion store is a pure state: a list of workout pages and an
  association list of aggregation rows keyed by (exercise name, date-only),
  which mirrors the day-level date filter in `exercise_entry_exists`.
-/

namespace StrongSync

/-! ## Association-list maps (Notion property dicts, aggregation rows) -/

/-- Keys of an association list. -/
def keysOf {κ ν : Type} (m : List (κ × ν)) : List κ :=
  m.map Prod.fst

/-- First-match lookup in an association list. -/
def alookup {κ ν : Type} [DecidableEq κ] : List (κ × ν) → κ → Option ν
  | [], _ => none
  | e :: t, k => if e.1 = k then some e.2 else alookup t k

/-- Replace the value at the first entry whose key matches, applying `f`;
identity when the key is absent. -/
def updK {κ ν : Type} [DecidableEq κ] : List (κ × ν) → κ → (ν → ν) → List (κ × ν)
  | [], _, _ => []
  | e :: t, k, f => if e.1 = k then (e.1, f e.2) :: t else e :: updK t k f

/-- Set a key to a value: replace the first matching entry, else append.
This models both Notion's `pages.update` property merge and the
update-else-create write against the aggregation table. -/
def setK {κ ν : Type} [DecidableEq κ] (m : List (κ × ν)) (k : κ) (v : ν) : List (κ × ν) :=
  if k ∈ keysOf m then updK m k (fun _ => v) else m ++ [(k, v)]

theorem keysOf_nil {κ ν : Type} : keysOf ([] : List (κ × ν)) = [] := rfl

theorem keysOf_cons {κ ν : Type} (e : κ × ν) (t : List (κ × ν)) :
    keysOf (e :: t) = e.1 :: keysOf t := rfl

theorem keysOf_append {κ ν : Type} (m₁ m₂ : List (κ × ν)) :
    keysOf (m₁ ++ m₂) = keysOf m₁ ++ keysOf m₂ := by
  simp [keysOf]

theorem keysOf_updK {κ ν : Type} [DecidableEq κ] (m : List (κ × ν)) (k : κ) (f : ν → ν) :
    keysOf (updK m k f) = keysOf m := by
  induction m with
  | nil => rfl
  | cons e t ih =>
      by_cases h : e.1 = k <;> simp [updK, h, keysOf_cons, ih]

theorem alookup_append {κ ν : Type} [DecidableEq κ] (m₁ m₂ : List (κ × ν)) (k : κ) :
    alookup (m₁ ++ m₂) k = (alookup m₁ k).orElse (fun _ => alookup m₂ k) := by
  induction m₁ with
  | nil => simp [alookup]
  | cons e t ih =>
      by_cases h : e.1 = k <;> simp [alookup, h, ih]

theorem alookup_eq_none {κ ν : Type} [DecidableEq κ] (m : List (κ × ν)) (k : κ)
    (h : k ∉ keysOf m) : alookup m k = none := by
  induction m with
  | nil => rfl
  | cons e t ih =>
      simp [keysOf_cons] at h
      simp [alookup, fun hkeq : e.1 = k => h.1 hkeq.symm, ih h.2]
      intro hkeq
      exact absurd hkeq.symm h.1

theorem alookup_isSome {κ ν : Type} [DecidableEq κ] (m : List (κ × ν)) (k : κ)
    (h : k ∈ keysOf m) : (alookup m k).isSome := by
  induction m with
  | nil => simp [keysOf] at h
  | cons e t ih =>
      by_cases hk : e.1 = k
      · simp [alookup, hk]
      · simp [keysOf_cons] at h
        rcases h with h | h
        · exact absurd h.symm hk
        · simpa [alookup, hk] using ih h

theorem alookup_updK_self {κ ν : Type} [DecidableEq κ] (m : List (κ × ν)) (k : κ) (f : ν → ν)
    (h : k ∈ keysOf m) :
    alookup (updK m k f) k = (alookup m k).map f := by
  induction m with
  | nil => simp [keysOf] at h
  | cons e t ih =>
      by_cases hk : e.1 = k
      · simp [updK, hk, alookup]
      · simp [keysOf_cons] at h
        rcases h with h | h
        · exact absurd h.symm hk
        · simp [updK, hk, alookup, ih h]

theorem alookup_updK_ne {κ ν : Type} [DecidableEq κ] (m : List (κ × ν)) (k k' : κ) (f : ν → ν)
    (h : k' ≠ k) : alookup (updK m k f) k' = alookup m k' := by
  induction m with
  | nil => rfl
  | cons e t ih =>
      by_cases hk : e.1 = k
      · have hne : ¬ e.1 = k' := fun hh => h ((hk.symm.trans hh).symm)
        simp [updK, hk, alookup, hne, Ne.symm h]
      · simp [updK, hk, alookup, ih]

theorem alookup_setK_self {κ ν : Type} [DecidableEq κ] (m : List (κ × ν)) (k : κ) (v : ν) :
    alookup (setK m k v) k = some v := by
  unfold setK
  by_cases h : k ∈ keysOf m
  · rw [if_pos h, alookup_updK_self m k _ h]
    rcases Option.isSome_iff_exists.mp (alookup_isSome m k h) with ⟨w, hw⟩
    simp [hw]
  · rw [if_neg h, alookup_append, alookup_eq_none m k h]
    simp [alookup]

theorem alookup_setK_ne {κ ν : Type} [DecidableEq κ] (m : List (κ × ν)) (k k' : κ) (v : ν)
    (h : k' ≠ k) : alookup (setK m k v) k' = alookup m k' := by
  unfold setK
  by_cases hk : k ∈ keysOf m
  · rw [if_pos hk, alookup_updK_ne m k k' _ h]
  · rw [if_neg hk, alookup_append]
    have hkk : ¬ k = k' := fun hkeq => h hkeq.symm
    cases hx : alookup m k' with
    | some w => simp [hx]
    | none => simp [hx, alookup, hkk]

theorem keysOf_setK_mem {κ ν : Type} [DecidableEq κ] (m : List (κ × ν)) (k : κ) (v : ν)
    (h : k ∈ keysOf m) : keysOf (setK m k v) = keysOf m := by
  simp [setK, h, keysOf_updK]

theorem keysOf_setK_not_mem {κ ν : Type} [DecidableEq κ] (m : List (κ × ν)) (k : κ) (v : ν)
    (h : k ∉ keysOf m) : keysOf (setK m k v) = keysOf m ++ [k] := by
  unfold setK
  rw [if_neg h, keysOf_append]
  rfl

theorem mem_keysOf_setK {κ ν : Type} [DecidableEq κ] (m : List (κ × ν)) (k k' : κ) (v : ν)
    (h : k' ∈ keysOf m) : k' ∈ keysOf (setK m k v) := by
  by_cases hk : k ∈ keysOf m
  · rwa [keysOf_setK_mem m k v hk]
  · rw [keysOf_setK_not_mem m k v hk]
    exact List.mem_append_left _ h

theorem self_mem_keysOf_setK {κ ν : Type} [DecidableEq κ] (m : List (κ × ν)) (k : κ) (v : ν) :
    k ∈ keysOf (setK m k v) := by
  by_cases hk : k ∈ keysOf m
  · rwa [keysOf_setK_mem m k v hk]
  · rw [keysOf_setK_not_mem m k v hk]
    exact List.mem_append_right _ (List.mem_singleton.mpr rfl)

/-! ## Python semantics helpers -/

/-- Python truthiness of an optional string environment value:
`None` and the empty string are falsy. -/
def truthy : Option String → Bool
  | none => false
  | some s => s ≠ ""

/-- Python's `a or b` on optional strings (used for `args.csv or os.getenv(...)`). -/
def pyOr (a b : Option String) : Option String :=
  if truthy a then a else b

/-- Decimal value of one digit character. -/
def digitVal (c : Char) : ℕ := c.toNat - 48

/-- Decimal value of a digit string. -/
def natOfDigits (l : List Char) : ℕ :=
  l.foldl (fun acc c => acc * 10 + digitVal c) 0

/-- Python `int(str)` on an integer literal string (domain: the integer
`Reps` column of the CSV). -/
def pyInt (s : String) : ℤ :=
  match s.data with
  | '-' :: rest => -(natOfDigits rest : ℤ)
  | l => (natOfDigits l : ℤ)

/-- Python `int(float)`: truncation toward zero. -/
def pyTrunc (q : ℚ) : ℤ :=
  if q < 0 then -⌊-q⌋ else ⌊q⌋

/-- Round-half-to-even to the nearest integer (Python's `round` on exact
decimal values). -/
def roundHE (x : ℚ) : ℤ :=
  let f := ⌊x⌋
  let r := x - f
  if r < 1/2 then f
  else if 1/2 < r then f + 1
  else if f % 2 = 0 then f else f + 1

/-- Python `round(x, 1)` on exact decimals. -/
def pyRound1 (x : ℚ) : ℚ :=
  (roundHE (x * 10) : ℚ) / 10

/-- Python `round(x, 2)` on exact decimals. -/
def pyRound2 (x : ℚ) : ℚ :=
  (roundHE (x * 100) : ℚ) / 100

/-- `f"{n:02d}"` for a natural number. -/
def pad2n (n : ℕ) : String :=
  if n < 10 then "0" ++ toString n else toString n

/-- `f"{i:02d}"` for an integer (negative values are not padded beyond the
sign, as in Python for width 2). -/
def pad2i (i : ℤ) : String :=
  if 0 ≤ i ∧ i < 10 then "0" ++ toString i else toString i

/-- Number of decimal digits needed to write `x` exactly (with fuel). -/
def decLen : ℚ → ℕ → ℕ
  | _, 0 => 0
  | x, fuel + 1 => if x = ((⌊x⌋ : ℤ) : ℚ) then 0 else decLen (x * 10) fuel + 1

/-- Render a non-negative terminating decimal with no trailing zeros
(`"62.5"`, `"100"`). -/
def renderPlain (x : ℚ) : String :=
  let d := decLen x 12
  let n := (⌊x * (10 : ℚ) ^ d⌋).toNat
  if d = 0 then toString n
  else
    let s := toString n
    let s := String.mk (List.replicate (d + 1 - s.length) '0') ++ s
    (s.take (s.length - d)) ++ "." ++ (s.drop (s.length - d))

/-- `⌊log₁₀ x⌋` for positive `x` in the modelled regime `[10⁻⁶, 10¹²]`. -/
def floorLog10 (x : ℚ) : ℤ :=
  (List.range 19).foldl (fun acc i => if (10 : ℚ) ^ ((i : ℤ) - 6) ≤ x then (i : ℤ) - 6 else acc) (-6)

/-- Round a positive rational to six significant digits (the precision of
Python's `"%g"`). -/
def roundSig6 (x : ℚ) : ℚ :=
  let L := floorLog10 x
  (roundHE (x * (10 : ℚ) ^ ((5 : ℤ) - L)) : ℚ) * (10 : ℚ) ^ (L - (5 : ℤ))

/-- Python `f"{x:g}"` in the fixed-notation regime: six significant digits,
trailing zeros stripped. -/
def formatG (q : ℚ) : String :=
  if q = 0 then "0"
  else if q < 0 then "-" ++ renderPlain (roundSig6 (-q))
  else renderPlain (roundSig6 q)

/-- Python `f"{x:.2f}"`: round half-to-even to two decimals, always show
two decimals. -/
def format2f (x : ℚ) : String :=
  let m := roundHE (x * 100)
  let sign := if m < 0 then "-" else ""
  let n := m.natAbs
  sign ++ toString (n / 100) ++ "." ++ pad2n (n % 100)

/-! ## Data model (`parse_csv` rows and records) -/

/-- One CSV row of the Strong export (fields the program reads).
Cells parsed with `float(...)` are `Option ℚ` (empty cell = `none`);
`Duration (sec)` is parsed unconditionally with `int(...)`. -/
structure Row where
  date : String
  workoutName : String
  durationSec : ℕ
  exerciseName : String
  setOrder : String
  weightKg : Option ℚ
  reps : String
  distanceM : Option ℚ
  seconds : Option ℚ
  notes : String
deriving DecidableEq, Repr

/-- The exercise dict appended by `parse_csv` for each kept row. -/
structure ExRow where
  exercise : String
  setOrder : String
  weightKg : Option ℚ
  reps : String
  distanceM : Option ℚ
  seconds : Option ℚ
  notes : String
deriving DecidableEq, Repr

/-- Projection of a CSV row to its exercise dict (`parse_csv`, lines 35-45). -/
def toEx (r : Row) : ExRow :=
  ⟨r.exerciseName, r.setOrder, r.weightKg, r.reps, r.distanceM, r.seconds, r.notes⟩

/-- One workout record (`parse_csv`'s per-date dict). -/
structure WorkoutRec where
  date : String
  name : String
  durationSec : ℕ
  exercises : List ExRow
deriving DecidableEq, Repr

/-- `format_time`: seconds into `m:ss` or `h:mm:ss` (Python `//`/`%` are
floor division and sign-of-divisor remainder). -/
def formatTime (totalSeconds : ℚ) : String :=
  let t : ℤ := pyTrunc totalSeconds
  let hours := Int.fdiv t 3600
  let minutes := Int.fdiv (Int.fmod t 3600) 60
  let seconds := Int.fmod t 60
  if hours > 0 then toString hours ++ ":" ++ pad2i minutes ++ ":" ++ pad2i seconds
  else toString minutes ++ ":" ++ pad2i seconds

/-- `format_set`: a single set's (weight display, reps display). -/
def formatSet (ex : ExRow) : String × String :=
  match ex.distanceM with
  | some dm =>
      (format2f (dm / 1000) ++ " km",
       match ex.seconds with
       | some s => formatTime s
       | none => "")
  | none =>
      match ex.seconds, ex.weightKg with
      | some s, none => ("", formatTime s)
      | _, _ =>
          let weight := ex.weightKg.getD 0
          ((if weight = 0 then "BW" else formatG weight),
           if ex.reps ≠ "" then ex.reps else "")

/-! ## First-seen grouping (the `OrderedDict` idiom of `parse_csv` and
`group_exercises`) -/

/-- One step of the ordered-dict grouping loop: ensure a bucket for the
row's key exists (initialising it from the row), then fold the row in. -/
def gStep {ρ κ ν : Type} [DecidableEq κ] (key : ρ → κ) (init : ρ → ν) (upd : ρ → ν → ν)
    (acc : List (κ × ν)) (r : ρ) : List (κ × ν) :=
  if key r ∈ keysOf acc then updK acc (key r) (upd r)
  else acc ++ [(key r, upd r (init r))]

/-- Ordered-dict grouping of a row list. -/
def gFold {ρ κ ν : Type} [DecidableEq κ] (key : ρ → κ) (init : ρ → ν) (upd : ρ → ν → ν)
    (rows : List ρ) : List (κ × ν) :=
  rows.foldl (gStep key init upd) []

/-- Specification shape of ordered-dict grouping: the first row of the
file opens the first group, which collects every row sharing its key in
file order; remaining groups come from the remaining rows. -/
def gSpec {ρ κ ν : Type} [DecidableEq κ] (key : ρ → κ) (init : ρ → ν) (upd : ρ → ν → ν) :
    List ρ → List (κ × ν)
  | [] => []
  | r :: rest =>
      (key r, List.foldl (fun v q => upd q v) (init r) (r :: rest.filter (fun q => key q = key r))) ::
        gSpec key init upd (rest.filter (fun q => ¬ (key q = key r)))
termination_by rows => rows.length
decreasing_by
  simp only [List.length_cons]
  exact Nat.lt_succ_of_le (List.length_filter_le _ _)

/-- Fold every row of `rows` whose key is `k` into `v`, in order. -/
def applyAll {ρ κ ν : Type} [DecidableEq κ] (key : ρ → κ) (upd : ρ → ν → ν)
    (k : κ) (v : ν) (rows : List ρ) : ν :=
  List.foldl (fun v q => upd q v) v (rows.filter (fun q => key q = k))

theorem applyAll_nil {ρ κ ν : Type} [DecidableEq κ] (key : ρ → κ) (upd : ρ → ν → ν)
    (k : κ) (v : ν) : applyAll key upd k v [] = v := rfl

theorem applyAll_cons {ρ κ ν : Type} [DecidableEq κ] (key : ρ → κ) (upd : ρ → ν → ν)
    (k : κ) (v : ν) (r : ρ) (rest : List ρ) :
    applyAll key upd k v (r :: rest) =
      if key r = k then applyAll key upd k (upd r v) rest else applyAll key upd k v rest := by
  by_cases h : key r = k <;> simp [applyAll, List.filter_cons, h]

/-- `updK` under a `map` that rebuilds each entry, when keys are distinct. -/
theorem updK_map_of_nodup {κ ν ν' : Type} [DecidableEq κ] (acc : List (κ × ν)) (k0 : κ)
    (f : ν → ν) (ext : κ → ν → ν') (hnd : (keysOf acc).Nodup) :
    (updK acc k0 f).map (fun e => (e.1, ext e.1 e.2)) =
      acc.map (fun e => (e.1, if e.1 = k0 then ext e.1 (f e.2) else ext e.1 e.2)) := by
  induction acc with
  | nil => rfl
  | cons e t ih =>
      rw [keysOf_cons, List.nodup_cons] at hnd
      by_cases he : e.1 = k0
      · subst he
        simp only [updK, if_pos rfl, List.map_cons, if_pos rfl]
        refine congrArg _ (List.map_congr_left fun a ha => ?_)
        have : ¬ a.1 = e.1 := by
          intro h
          exact hnd.1 (h ▸ List.mem_map_of_mem Prod.fst ha)
        simp [this]
      · simp only [updK, if_neg he, List.map_cons, ih hnd.2, if_neg he]

/-- Two successive filters collapse to the second when the second predicate
implies the first. -/
theorem filter_filter_of_imp {ρ : Type} (l : List ρ) (p q : ρ → Bool)
    (h : ∀ a, q a = true → p a = true) : (l.filter p).filter q = l.filter q := by
  induction l with
  | nil => rfl
  | cons a t ih =>
      by_cases hq : q a = true
      · have hp := h a hq
        simp [List.filter_cons, hp, hq, ih]
      · by_cases hp : p a = true
        · simp [List.filter_cons, hp, hq, ih]
        · simp [List.filter_cons, hp, hq, ih]

/-- Accumulator-generalised correctness of the ordered-dict grouping loop. -/
theorem gFold_aux {ρ κ ν : Type} [DecidableEq κ] (key : ρ → κ) (init : ρ → ν)
    (upd : ρ → ν → ν) (rows : List ρ) :
    ∀ (acc : List (κ × ν)), (keysOf acc).Nodup →
      rows.foldl (gStep key init upd) acc =
        acc.map (fun e => (e.1, applyAll key upd e.1 e.2 rows)) ++
          gSpec key init upd (rows.filter (fun r => ¬ (key r ∈ keysOf acc))) := by
  induction rows with
  | nil =>
      intro acc _
      simp [applyAll_nil, gSpec]
  | cons r rest ih =>
      intro acc hnd
      rw [List.foldl_cons]
      by_cases hmem : key r ∈ keysOf acc
      · have hstep : gStep key init upd acc r = updK acc (key r) (upd r) := by
          simp [gStep, hmem]
        rw [hstep, ih _ (by rw [keysOf_updK]; exact hnd)]
        rw [keysOf_updK]
        have hhead :
            (updK acc (key r) (upd r)).map (fun e => (e.1, applyAll key upd e.1 e.2 rest)) =
              acc.map (fun e => (e.1, applyAll key upd e.1 e.2 (r :: rest))) := by
          rw [updK_map_of_nodup acc (key r) (upd r) (fun k v => applyAll key upd k v rest) hnd]
          refine List.map_congr_left fun a _ => ?_
          rw [applyAll_cons]
          by_cases hk : a.1 = key r
          · simp [hk]
          · have : ¬ key r = a.1 := fun h => hk h.symm
            simp [hk, this]
        rw [hhead]
        have hfilt : (r :: rest).filter (fun q => ¬ (key q ∈ keysOf acc)) =
            rest.filter (fun q => ¬ (key q ∈ keysOf acc)) := by
          simp [List.filter_cons, hmem]
        rw [hfilt]
      · have hstep : gStep key init upd acc r = acc ++ [(key r, upd r (init r))] := by
          simp [gStep, hmem]
        have hnd' : (keysOf (acc ++ [(key r, upd r (init r))])).Nodup := by
          rw [keysOf_append, List.nodup_append]
          refine ⟨hnd, by simp [keysOf], ?_⟩
          intro a ha hb
          have : a = key r := by simpa [keysOf] using hb
          exact hmem (this ▸ ha)
        rw [hstep, ih _ hnd']
        rw [List.map_append, keysOf_append]
        have hfilt : (r :: rest).filter (fun q => ¬ (key q ∈ keysOf acc)) =
            r :: rest.filter (fun q => ¬ (key q ∈ keysOf acc)) := by
          simp [List.filter_cons, hmem]
        rw [hfilt, gSpec]
        have hmapacc : acc.map (fun e => (e.1, applyAll key upd e.1 e.2 (r :: rest))) =
            acc.map (fun e => (e.1, applyAll key upd e.1 e.2 rest)) := by
          refine List.map_congr_left fun a ha => ?_
          rw [applyAll_cons]
          have : ¬ key r = a.1 := by
            intro h
            exact hmem (h ▸ List.mem_map_of_mem Prod.fst ha)
          simp [this]
        rw [hmapacc]
        have hsingle : [((key r, upd r (init r)) : κ × ν)].map
              (fun e => (e.1, applyAll key upd e.1 e.2 rest)) =
            [(key r, applyAll key upd (key r) (upd r (init r)) rest)] := by
          simp
        rw [hsingle]
        have hsets : (rest.filter (fun q => ¬ (key q ∈ keysOf acc))).filter
              (fun q => key q = key r) = rest.filter (fun q => key q = key r) := by
          refine filter_filter_of_imp rest _ _ fun a ha => ?_
          have hk : key a = key r := by simpa using ha
          simp [hk, hmem]
        have hhead2 : List.foldl (fun v q => upd q v) (init r)
              (r :: (rest.filter (fun q => ¬ (key q ∈ keysOf acc))).filter
                (fun q => key q = key r)) =
            applyAll key upd (key r) (upd r (init r)) rest := by
          rw [hsets, List.foldl_cons]
          rfl
        have htail : (rest.filter (fun q => ¬ (key q ∈ keysOf acc))).filter
              (fun q => ¬ (key q = key r)) =
            rest.filter (fun q => ¬ (key q ∈ keysOf acc ++ [key r])) := by
          rw [List.filter_filter]
          refine (List.filter_congr fun a _ => ?_).symm
          by_cases h1 : key a ∈ keysOf acc
          · simp [h1]
          · by_cases h2 : key a = key r <;> simp [h1, h2]
        rw [hhead2, htail]
        have hkeys : keysOf ([(key r, upd r (init r))] : List (κ × ν)) = [key r] := rfl
        rw [hkeys, List.append_assoc, List.singleton_append]

/-- Correctness of the ordered-dict grouping loop. -/
theorem gFold_eq_gSpec {ρ κ ν : Type} [DecidableEq κ] (key : ρ → κ) (init : ρ → ν)
    (upd : ρ → ν → ν) (rows : List ρ) :
    gFold key init upd rows = gSpec key init upd rows := by
  have h := gFold_aux key init upd rows [] (by simp [keysOf])
  simpa [gFold, keysOf] using h

/-! ## `parse_csv` -/

/-- Key of the parse dict: the row's `Date` cell. -/
def pKey (r : Row) : String := r.date

/-- The fresh workout dict opened on first occurrence of a date
(`parse_csv`, lines 28-33). -/
def pInit (r : Row) : WorkoutRec :=
  ⟨r.date, r.workoutName, r.durationSec, []⟩

/-- Append the row's exercise fields to the record (`parse_csv`, line 35). -/
def pUpd (r : Row) (w : WorkoutRec) : WorkoutRec :=
  { w with exercises := w.exercises ++ [toEx r] }

/-- One loop iteration of `parse_csv`: skip `"Rest Timer"` rows, otherwise
group into the ordered dict. -/
def parseStep (acc : List (String × WorkoutRec)) (r : Row) : List (String × WorkoutRec) :=
  if r.setOrder = "Rest Timer" then acc else gStep pKey pInit pUpd acc r

/-- `parse_csv`: group rows into workouts keyed by date, in an ordered dict. -/
def parseCsv (rows : List Row) : List (String × WorkoutRec) :=
  rows.foldl parseStep []

/-- Claim-shaped specification of the parser: one record per distinct date
in first-seen order; name and duration from the first row with that date;
exercises are all rows with that date, in file order.  (To be applied to
the rows that survive the `"Rest Timer"` skip.) -/
def parseSpec : List Row → List (String × WorkoutRec)
  | [] => []
  | r :: rest =>
      (r.date, ⟨r.date, r.workoutName, r.durationSec,
          (r :: rest.filter (fun q => q.date = r.date)).map toEx⟩) ::
        parseSpec (rest.filter (fun q => ¬ (q.date = r.date)))
termination_by rows => rows.length
decreasing_by
  simp only [List.length_cons]
  exact Nat.lt_succ_of_le (List.length_filter_le _ _)

/-- A fold with a skip-guard is the fold over the filtered list. -/
theorem foldl_skip_guard {α β : Type} (q : β → Bool) (f : α → β → α) (l : List β) :
    ∀ a, l.foldl (fun acc b => if q b then acc else f acc b) a =
      (l.filter (fun b => ¬ (q b = true))).foldl f a := by
  induction l with
  | nil => intro a; rfl
  | cons b t ih =>
      intro a
      by_cases hb : q b = true
      · simp [List.filter_cons, hb, ih]
      · simp [List.filter_cons, hb, ih]

theorem parseCsv_eq_gFold (rows : List Row) :
    parseCsv rows =
      gFold pKey pInit pUpd (rows.filter (fun r => ¬ (r.setOrder = "Rest Timer"))) := by
  unfold parseCsv gFold
  have h := foldl_skip_guard (fun r : Row => r.setOrder = "Rest Timer")
      (gStep pKey pInit pUpd) rows []
  simpa [parseStep] using h

/-- Folding rows into a workout record appends their exercise fields. -/
theorem pUpd_foldl (l : List Row) :
    ∀ w : WorkoutRec, List.foldl (fun v q => pUpd q v) w l =
      ⟨w.date, w.name, w.durationSec, w.exercises ++ l.map toEx⟩ := by
  induction l with
  | nil => intro w; simp
  | cons r t ih =>
      intro w
      rw [List.foldl_cons, ih]
      simp [pUpd]

theorem gSpec_eq_parseSpec (l : List Row) :
    gSpec pKey pInit pUpd l = parseSpec l := by
  generalize hn : l.length = n
  induction n using Nat.strong_induction_on generalizing l with
  | _ n ih =>
      cases l with
      | nil => simp [gSpec, parseSpec]
      | cons r rest =>
          rw [gSpec, parseSpec]
          subst hn
          refine congrArg₂ _ ?_ ?_
          · refine congrArg _ ?_
            rw [pUpd_foldl]
            rfl
          · exact ih _ (Nat.lt_succ_of_le (List.length_filter_le _ _)) _ rfl

/-- **C4.** The parser returns exactly one workout record per distinct
Date among non-"Rest Timer" rows, keyed in first-seen order; each record
takes name and duration from the first such row with that date, and its
exercise list is exactly the non-"Rest Timer" rows with that date in file
order. -/
theorem c4_parse_csv_grouping (rows : List Row) :
    parseCsv rows = parseSpec (rows.filter (fun r => ¬ (r.setOrder = "Rest Timer"))) := by
  rw [parseCsv_eq_gFold, gFold_eq_gSpec, gSpec_eq_parseSpec]

/-! ## `group_exercises` -/

/-- Per-exercise bucket: ordered sets list and ordered notes list. -/
structure ExGroup where
  sets : List ExRow
  notes : List String
deriving DecidableEq, Repr

/-- One `group_exercises` fold step: `"Note"` rows collect their notes
text, all other rows are sets. -/
def exUpd (r : ExRow) (g : ExGroup) : ExGroup :=
  if r.setOrder = "Note" then { g with notes := g.notes ++ [r.notes] }
  else { g with sets := g.sets ++ [r] }

/-- `group_exercises`: group exercise rows by name, maintaining order. -/
def groupExercises (exs : List ExRow) : List (String × ExGroup) :=
  gFold (fun e => e.exercise) (fun _ => ⟨[], []⟩) exUpd exs

/-- Folding rows into a bucket splits them into non-Note sets and Note
notes, preserving order. -/
theorem exUpd_foldl (l : List ExRow) :
    ∀ g : ExGroup, List.foldl (fun v q => exUpd q v) g l =
      ⟨g.sets ++ l.filter (fun e => ¬ (e.setOrder = "Note")),
       g.notes ++ (l.filter (fun e => e.setOrder = "Note")).map (fun e => e.notes)⟩ := by
  induction l with
  | nil => intro g; simp
  | cons r t ih =>
      intro g
      rw [List.foldl_cons, ih]
      by_cases hr : r.setOrder = "Note" <;> simp [exUpd, hr, List.filter_cons]

/-! ## `build_page_content` -/

/-- A Notion content block, reduced to the fields the program sets.
Each rich-text cell in the source is a single text element, collapsed to
its content string; `para`'s flag is the italic annotation. -/
inductive Block where
  | heading3 (text : String)
  | para (text : String) (italic : Bool)
  | table (width : ℕ) (hasColHeader : Bool) (hasRowHeader : Bool) (rows : List (List String))
  | divider
deriving DecidableEq, Repr

/-- Header cells of a sets table (`build_page_content`, line 139). -/
def headerCells : List String := ["Set", "Weight (kg)", "Reps"]

/-- Cells of one set row (`build_page_content`, lines 143-148). -/
def setCells (s : ExRow) : List String :=
  [s.setOrder, (formatSet s).1, (formatSet s).2]

/-- Blocks emitted for one exercise group: heading, italic note paragraphs,
and a table when sets exist. -/
def groupBlocks (n : String) (g : ExGroup) : List Block :=
  [Block.heading3 n] ++ g.notes.map (fun t => Block.para t true) ++
    (if g.sets = [] then []
     else [Block.table 3 true false (headerCells :: g.sets.map setCells)])

/-- The `enumerate` loop of `build_page_content`: group blocks with a
divider after every group except the last. -/
def blocksForGroups : List (String × ExGroup) → List Block
  | [] => []
  | [g] => groupBlocks g.1 g.2
  | g :: g' :: rest => groupBlocks g.1 g.2 ++ [Block.divider] ++ blocksForGroups (g' :: rest)

/-- `build_page_content`: heading and table per exercise. -/
def buildPageContent (exercises : List ExRow) : List Block :=
  blocksForGroups (groupExercises exercises)

/-- Claim-shaped blocks of one exercise group over the whole exercise
list: heading, then one italic paragraph per "Note" row of that exercise
in order, then one three-column table (header plus one row per non-Note
row in order) exactly when a non-Note row exists. -/
def specGroupBlocks (n : String) (exs : List ExRow) : List Block :=
  Block.heading3 n ::
    ((exs.filter (fun e => e.exercise = n ∧ e.setOrder = "Note")).map
      (fun e => Block.para e.notes true)) ++
    (if exs.filter (fun e => e.exercise = n ∧ ¬ (e.setOrder = "Note")) = [] then []
     else [Block.table 3 true false
        (headerCells ::
          (exs.filter (fun e => e.exercise = n ∧ ¬ (e.setOrder = "Note"))).map setCells)])

/-- Claim-shaped content builder: exercise groups in first-seen name
order, with a divider between consecutive groups and never after the
last. -/
def buildSpec : List ExRow → List Block
  | [] => []
  | e :: rest =>
      specGroupBlocks e.exercise (e :: rest) ++
        (if rest.filter (fun q => ¬ (q.exercise = e.exercise)) = [] then []
         else Block.divider :: buildSpec (rest.filter (fun q => ¬ (q.exercise = e.exercise))))
termination_by exs => exs.length
decreasing_by
  simp only [List.length_cons]
  exact Nat.lt_succ_of_le (List.length_filter_le _ _)

/-- Composing two filters is filtering by the conjunction. -/
theorem filter_comm_and {α : Type} (l : List α) (p q : α → Prop)
    [DecidablePred p] [DecidablePred q] :
    (l.filter (fun a => p a)).filter (fun a => q a) = l.filter (fun a => p a ∧ q a) := by
  induction l with
  | nil => rfl
  | cons a t ih =>
      by_cases hp : p a
      · by_cases hq : q a <;> simp [List.filter_cons, hp, hq, ih]
      · simp [List.filter_cons, hp, ih]

theorem gSpec_ne_nil {ρ κ ν : Type} [DecidableEq κ] (key : ρ → κ) (init : ρ → ν)
    (upd : ρ → ν → ν) (r : ρ) (rest : List ρ) :
    gSpec key init upd (r :: rest) ≠ [] := by
  rw [gSpec]
  exact List.cons_ne_nil _ _

/-- The head group's blocks agree with the claim-shaped blocks. -/
theorem groupBlocks_head (e : ExRow) (rest : List ExRow) :
    groupBlocks e.exercise
        (List.foldl (fun v q => exUpd q v) (⟨[], []⟩ : ExGroup)
          (e :: rest.filter (fun q => q.exercise = e.exercise))) =
      specGroupBlocks e.exercise (e :: rest) := by
  rw [exUpd_foldl]
  unfold groupBlocks specGroupBlocks
  have hsets : (e :: rest.filter (fun q => q.exercise = e.exercise)).filter
        (fun q => ¬ (q.setOrder = "Note")) =
      (e :: rest).filter (fun q => q.exercise = e.exercise ∧ ¬ (q.setOrder = "Note")) := by
    rw [show (e :: rest).filter (fun q => q.exercise = e.exercise ∧ ¬ (q.setOrder = "Note")) =
        ((e :: rest).filter (fun q => q.exercise = e.exercise)).filter
          (fun q => ¬ (q.setOrder = "Note")) from
      (filter_comm_and (e :: rest) _ _).symm]
    simp [List.filter_cons]
  have hnotes : (e :: rest.filter (fun q => q.exercise = e.exercise)).filter
        (fun q => q.setOrder = "Note") =
      (e :: rest).filter (fun q => q.exercise = e.exercise ∧ q.setOrder = "Note") := by
    rw [show (e :: rest).filter (fun q => q.exercise = e.exercise ∧ q.setOrder = "Note") =
        ((e :: rest).filter (fun q => q.exercise = e.exercise)).filter
          (fun q => q.setOrder = "Note") from
      (filter_comm_and (e :: rest) _ _).symm]
    simp [List.filter_cons]
  rw [hsets, hnotes]
  simp

theorem blocksForGroups_gSpec (l : List ExRow) :
    blocksForGroups (gSpec (fun e => e.exercise) (fun _ => (⟨[], []⟩ : ExGroup)) exUpd l) =
      buildSpec l := by
  generalize hn : l.length = n
  induction n using Nat.strong_induction_on generalizing l with
  | _ n ih =>
      cases l with
      | nil => simp [gSpec, buildSpec, blocksForGroups]
      | cons e rest =>
          rw [gSpec, buildSpec]
          subst hn
          have htail := ih (rest.filter (fun q => ¬ (q.exercise = e.exercise))).length
            (Nat.lt_succ_of_le (List.length_filter_le _ _)) _ rfl
          by_cases hrest : rest.filter (fun q => ¬ (q.exercise = e.exercise)) = []
          · rw [hrest] at htail ⊢
            rw [show gSpec (fun e : ExRow => e.exercise) (fun _ => (⟨[], []⟩ : ExGroup))
                exUpd [] = [] by rw [gSpec]]
            rw [if_pos rfl]
            rw [blocksForGroups]
            rw [groupBlocks_head]
            simp
          · rw [if_neg hrest]
            cases hg : gSpec (fun e : ExRow => e.exercise) (fun _ => (⟨[], []⟩ : ExGroup)) exUpd
                (rest.filter (fun q => ¬ (q.exercise = e.exercise))) with
            | nil =>
                exfalso
                cases hr : rest.filter (fun q => ¬ (q.exercise = e.exercise)) with
                | nil => exact hrest hr
                | cons a t =>
                    rw [hr] at hg
                    exact gSpec_ne_nil _ _ _ a t hg
            | cons gh gt =>
                rw [blocksForGroups]
                rw [← hg, htail, groupBlocks_head]
                simp

/-- **C5 (amended: the table header's middle cell reads "Weight (kg)",
not "Weight").** The content builder emits, per exercise group in
first-seen name order, a heading, one italic paragraph per "Note" row in
original order, then exactly one 3-column table (header `Set` /
`Weight (kg)` / `Reps` plus one row per non-Note set in original order)
when and only when a non-Note row exists; dividers appear between
consecutive groups and never after the last, and "Note" rows never
become table rows. -/
theorem c5_build_page_content (exercises : List ExRow) :
    buildPageContent exercises = buildSpec exercises := by
  unfold buildPageContent groupExercises
  rw [gFold_eq_gSpec, blocksForGroups_gSpec]

/-! ## Claim C5 counterexample and claims C6, C7 -/

/-- **C5 counterexample.** On a one-set exercise list the emitted table's
header row is `Set` / `Weight (kg)` / `Reps`, not the claimed
`Set` / `Weight` / `Reps`. -/
theorem c5_counterexample :
    buildPageContent [⟨"Bench Press", "1", some 100, "5", none, none, ""⟩] =
      [Block.heading3 "Bench Press",
       Block.table 3 true false [["Set", "Weight (kg)", "Reps"], ["1", "100", "5"]]] ∧
    (["Set", "Weight (kg)", "Reps"] : List String) ≠ ["Set", "Weight", "Reps"] := by
  constructor
  · show blocksForGroups (gFold _ _ _ _) = _
    rw [gFold]
    simp only [List.foldl_cons, List.foldl_nil, gStep, keysOf_nil, List.not_mem_nil,
      if_false]
    simp [exUpd, blocksForGroups, groupBlocks, headerCells, setCells, formatSet]
    norm_num [formatG, roundSig6, floorLog10, renderPlain, decLen, roundHE, List.range,
      List.range.loop]
    all_goals decide
  · decide

/-- Claim-shaped time rule: `H:MM:SS` when the value is at least 3600,
`M:SS` otherwise, no leading zero on the leading unit, two digits on
trailing units. -/
def formatTimeSpec (q : ℚ) : String :=
  let n : ℕ := (pyTrunc q).toNat
  if (3600 : ℚ) ≤ q then
    toString (n / 3600) ++ ":" ++ pad2n ((n % 3600) / 60) ++ ":" ++ pad2n (n % 60)
  else toString (n / 60) ++ ":" ++ pad2n (n % 60)

theorem toString_intNat (k : ℕ) : toString ((k : ℤ)) = toString k := rfl

theorem pad2i_natCast (k : ℕ) : pad2i ((k : ℤ)) = pad2n k := by
  by_cases h : k < 10
  · have h' : ((k : ℤ)) < 10 := by exact_mod_cast h
    simp [pad2i, pad2n, h, h', toString_intNat, Int.ofNat_nonneg]
  · have h' : ¬ ((k : ℤ)) < 10 := by exact_mod_cast h
    simp [pad2i, pad2n, h, h', toString_intNat]

/-- **C6.** For every non-negative total-seconds value the formatter
renders `H:MM:SS` when the value is at least 3600 and `M:SS` otherwise,
with no leading zero on the leading unit and two digits on trailing
units; 45 renders "0:45", 125 renders "2:05", 3725 renders "1:02:05". -/
theorem c6_format_time :
    (∀ q : ℚ, 0 ≤ q → formatTime q = formatTimeSpec q) ∧
    formatTime 45 = "0:45" ∧ formatTime 125 = "2:05" ∧ formatTime 3725 = "1:02:05" := by
  refine ⟨?_, ?_, ?_, ?_⟩
  · intro q hq
    have hq' : ¬ q < 0 := not_lt.mpr hq
    have ht : (0 : ℤ) ≤ ⌊q⌋ := Int.floor_nonneg.mpr hq
    obtain ⟨n, hn⟩ : ∃ n : ℕ, ⌊q⌋ = (n : ℤ) := ⟨(⌊q⌋).toNat, (Int.toNat_of_nonneg ht).symm⟩
    have hcast : 3600 ≤ n ↔ (3600 : ℚ) ≤ q := by
      constructor
      · intro h
        have h' : (3600 : ℤ) ≤ ⌊q⌋ := hn ▸ (by exact_mod_cast h)
        have := Int.le_floor.mp h'
        exact_mod_cast this
      · intro h
        have h' : (3600 : ℤ) ≤ ⌊q⌋ := Int.le_floor.mpr (by exact_mod_cast h)
        exact_mod_cast (hn ▸ h')
    have hdiv : (0 : ℤ) < ((n / 3600 : ℕ) : ℤ) ↔ (3600 : ℚ) ≤ q := by
      rw [Int.ofNat_pos]
      rw [← hcast]
      constructor
      · intro h
        by_contra hlt
        push_neg at hlt
        rw [Nat.div_eq_of_lt hlt] at h
        exact lt_irrefl 0 h
      · intro h
        exact Nat.div_pos h (by norm_num)
    simp only [formatTime, formatTimeSpec, pyTrunc, hq', if_false, hn, Int.toNat_natCast]
    rw [show Int.fdiv (n : ℤ) 3600 = ((n / 3600 : ℕ) : ℤ) from (Int.ofNat_fdiv n 3600).symm,
        show Int.fmod (n : ℤ) 3600 = ((n % 3600 : ℕ) : ℤ) from (Int.ofNat_fmod n 3600).symm,
        show Int.fdiv ((n % 3600 : ℕ) : ℤ) 60 = ((n % 3600 / 60 : ℕ) : ℤ) from
          (Int.ofNat_fdiv (n % 3600) 60).symm,
        show Int.fmod (n : ℤ) 60 = ((n % 60 : ℕ) : ℤ) from (Int.ofNat_fmod n 60).symm]
    by_cases hb : (3600 : ℚ) ≤ q
    · rw [if_pos (show ((n / 3600 : ℕ) : ℤ) > 0 from hdiv.mpr hb), if_pos hb]
      simp only [toString_intNat, pad2i_natCast]
    · rw [if_neg (show ¬ ((n / 3600 : ℕ) : ℤ) > 0 from fun h => hb (hdiv.mp h)), if_neg hb]
      have hlt : n < 3600 := by
        by_contra hge
        push_neg at hge
        exact hb (hcast.mp hge)
      rw [Nat.mod_eq_of_lt hlt]
      simp only [toString_intNat, pad2i_natCast]
  · decide
  · decide
  · decide

/-- Claim-shaped set formatter: branch on distance presence, then on
seconds-present-and-weight-absent, else bodyweight/numeric weight with the
raw reps value. -/
def formatSetSpec (ex : ExRow) : String × String :=
  if ex.distanceM.isSome then
    (format2f (ex.distanceM.getD 0 / 1000) ++ " km",
     if ex.seconds.isSome then formatTime (ex.seconds.getD 0) else "")
  else if ex.seconds.isSome ∧ ex.weightKg.isNone then
    ("", formatTime (ex.seconds.getD 0))
  else
    ((if ex.weightKg.getD 0 = 0 then "BW" else formatG (ex.weightKg.getD 0)), ex.reps)

/-- **C7.** The set formatter follows the claimed branch order and
displays: distance in km to two decimals with time-or-empty reps;
time-only sets show only the formatted time; otherwise "BW" for zero or
absent weight, the weight with no trailing zeros otherwise (100 renders
"100", 62.5 renders "62.5"), and the raw reps value or empty. -/
theorem c7_format_set :
    (∀ ex : ExRow, formatSet ex = formatSetSpec ex) ∧
    formatSet ⟨"E", "1", some 100, "5", none, none, ""⟩ = ("100", "5") ∧
    formatSet ⟨"E", "1", some (125/2), "5", none, none, ""⟩ = ("62.5", "5") ∧
    formatSet ⟨"E", "1", some 0, "8", none, none, ""⟩ = ("BW", "8") ∧
    formatSet ⟨"E", "1", none, "8", none, none, ""⟩ = ("BW", "8") := by
  have hreps : ∀ s : String, (if s ≠ "" then s else "") = s := by
    intro s
    by_cases h : s = "" <;> simp [h]
  refine ⟨?_, ?_, ?_, ?_, ?_⟩
  · intro ex
    cases hdm : ex.distanceM with
    | some dm =>
        cases hs : ex.seconds with
        | some s => simp [formatSet, formatSetSpec, hdm, hs]
        | none => simp [formatSet, formatSetSpec, hdm, hs]
    | none =>
        cases hs : ex.seconds with
        | some s =>
            cases hw : ex.weightKg with
            | some w => simp [formatSet, formatSetSpec, hdm, hs, hw, hreps]
            | none => simp [formatSet, formatSetSpec, hdm, hs, hw]
        | none =>
            cases hw : ex.weightKg with
            | some w => simp [formatSet, formatSetSpec, hdm, hs, hw, hreps]
            | none => simp [formatSet, formatSetSpec, hdm, hs, hw, hreps]
  · simp [formatSet]
    norm_num [formatG, roundSig6, floorLog10, renderPlain, decLen, roundHE, List.range,
      List.range.loop]
    all_goals decide
  · simp [formatSet]
    norm_num [formatG, roundSig6, floorLog10, renderPlain, decLen, roundHE, List.range,
      List.range.loop]
    all_goals decide
  · simp [formatSet]
  · simp [formatSet]

/-! ## Datetimes (`make_workout_dates`)

`datetime.strptime(date, "%Y-%m-%d %H:%M:%S")` then `local_tz.localize`
then `+ timedelta(seconds=...)` is wall-clock arithmetic in one fixed
zone; we model a localized datetime as its linear second count on that
wall clock (days via the civil-calendar day number). -/

/-- Parsed components of a `"%Y-%m-%d %H:%M:%S"` timestamp string. -/
structure DT where
  year : ℕ
  month : ℕ
  day : ℕ
  hour : ℕ
  minute : ℕ
  second : ℕ
deriving DecidableEq, Repr

/-- Parse one numeric field of the timestamp. -/
def natOf (s : String) : ℕ := natOfDigits s.data

/-- Parse a `"%Y-%m-%d %H:%M:%S"` string into components. -/
def parseDT (s : String) : DT :=
  match s.splitOn " " with
  | [dpart, tpart] =>
      match dpart.splitOn "-", tpart.splitOn ":" with
      | [y, m, d], [hh, mi, ss] => ⟨natOf y, natOf m, natOf d, natOf hh, natOf mi, natOf ss⟩
      | _, _ => ⟨0, 0, 0, 0, 0, 0⟩
  | _ => ⟨0, 0, 0, 0, 0, 0⟩

/-- Civil-calendar day number (valid for the CSV's Gregorian dates). -/
def daysFromCivil (y m d : ℕ) : ℕ :=
  let yy := if m ≤ 2 then y - 1 else y
  let era := yy / 400
  let yoe := yy % 400
  let mp := (m + 9) % 12
  let doy := (153 * mp + 2) / 5 + (d - 1)
  let doe := yoe * 365 + yoe / 4 - yoe / 100 + doy
  era * 146097 + doe

/-- Linear wall-clock seconds of a parsed timestamp. -/
def tsOf (dt : DT) : ℕ :=
  daysFromCivil dt.year dt.month dt.day * 86400 + dt.hour * 3600 + dt.minute * 60 + dt.second

/-- Localized start instant of a workout (`make_workout_dates`). -/
def startTs (date : String) : ℕ := tsOf (parseDT date)

/-- `make_workout_dates`: localized start and start-plus-duration end. -/
def makeWorkoutDates (w : WorkoutRec) : ℕ × ℕ :=
  (startTs w.date, startTs w.date + w.durationSec)

/-- `f"{n:04d}"`-style year padding of `strftime("%Y-...")`. -/
def pad4 (n : ℕ) : String :=
  if n < 10 then "000" ++ toString n
  else if n < 100 then "00" ++ toString n
  else if n < 1000 then "0" ++ toString n
  else toString n

/-- `start_dt.strftime("%Y-%m-%d")` (`sync_exercise_entries`, line 301). -/
def dateOnlyOf (date : String) : String :=
  pad4 (parseDT date).year ++ "-" ++ pad2n (parseDT date).month ++ "-" ++
    pad2n (parseDT date).day

/-- The derived stable id `f"strong-{workout_date}"`. -/
def strongId (date : String) : String := "strong-" ++ date

/-! ## Notion pages and `create_workout_page` / `update_workout` -/

/-- A Notion property value, restricted to the shapes the program writes. -/
inductive PropValue where
  | title (s : String)
  | dateRange (startSec : ℕ) (stopSec : Option ℕ)
  | select (s : String)
  | number (q : ℚ)
  | checkbox (b : Bool)
  | richText (s : String)
  | multiSelect (tags : List String)
deriving DecidableEq, Repr

/-- The full property dict of `create_workout_page` (lines 197-216). -/
def createProps (w : WorkoutRec) : List (String × PropValue) :=
  [("Activity Name", .title w.name),
   ("Date", .dateRange (startTs w.date) (some (startTs w.date + w.durationSec))),
   ("Activity Type", .select "Strength"),
   ("Subactivity Type", .select "Strength Training"),
   ("Duration (min)", .number (pyRound2 ((w.durationSec : ℚ) / 60))),
   ("Distance (km)", .number 0),
   ("Calories", .number 0),
   ("Avg Pace", .richText ""),
   ("Avg Power", .number 0),
   ("Max Power", .number 0),
   ("Training Effect", .select "Unknown"),
   ("Aerobic", .number 0),
   ("Aerobic Effect", .select "Unknown"),
   ("Anaerobic", .number 0),
   ("Anaerobic Effect", .select "Unknown"),
   ("PR", .checkbox false),
   ("Fav", .checkbox false),
   ("Garmin ID", .multiSelect [strongId w.date])]

/-- A remote workout page: id, property dict, content blocks (with block
ids, since `replace_page_content` deletes by block id). -/
structure Page where
  id : ℕ
  props : List (String × PropValue)
  blocks : List (ℕ × Block)
deriving DecidableEq, Repr

/-- Attach fresh block ids to appended blocks. -/
def withIds (base : ℕ) (bs : List Block) : List (ℕ × Block) :=
  bs.enum.map (fun e => (base + e.1, e.2))

/-- `create_workout_page`: new page with the full property set, then the
built content blocks appended. -/
def createPage (pid : ℕ) (w : WorkoutRec) : Page :=
  ⟨pid, createProps w, withIds 0 (buildPageContent w.exercises)⟩

/-- The remote listing returns the page's children in pages of `n + 1`
blocks with a continuation cursor; modelled as pre-computed chunks. -/
def chunksOf {α : Type} (n : ℕ) : List α → List (List α)
  | [] => []
  | x :: xs => List.take (n + 1) (x :: xs) :: chunksOf n (List.drop (n + 1) (x :: xs))
termination_by l => l.length
decreasing_by
  simp only [List.length_drop, List.length_cons]
  omega

/-- Delete every listed block id from the page (one pagination round). -/
def deleteListed (bs : List (ℕ × Block)) (chunk : List (ℕ × Block)) : List (ℕ × Block) :=
  bs.filter (fun b => ¬ (b.1 ∈ chunk.map Prod.fst))

/-- Next fresh block id. -/
def nextId (bs : List (ℕ × Block)) : ℕ :=
  (bs.map Prod.fst).foldr max 0 + 1

/-- `replace_page_content`: list the existing children (paginating through
the continuation cursor), delete them all, then append the new blocks. -/
def replacePageContent (n : ℕ) (blocks : List (ℕ × Block)) (newBlocks : List Block) :
    List (ℕ × Block) :=
  (chunksOf n blocks).foldl deleteListed blocks ++ withIds (nextId blocks) newBlocks

/-- `update_workout`: update only the `Date` property, then rebuild the
page content. -/
def updateWorkout (n : ℕ) (page : Page) (w : WorkoutRec) : Page :=
  ⟨page.id,
   setK page.props "Date"
     (.dateRange (startTs w.date) (some (startTs w.date + w.durationSec))),
   replacePageContent n page.blocks (buildPageContent w.exercises)⟩

theorem chunksOf_join {α : Type} (n : ℕ) (l : List α) : (chunksOf n l).flatten = l := by
  generalize hn : l.length = len
  induction len using Nat.strong_induction_on generalizing l with
  | _ len ih =>
      cases l with
      | nil => simp [chunksOf]
      | cons x xs =>
          rw [chunksOf]
          subst hn
          rw [List.flatten_cons, ih (List.drop (n + 1) (x :: xs)).length
            (by simp only [List.length_drop, List.length_cons]; omega) _ rfl]
          exact List.take_append_drop _ _

theorem foldl_deleteListed (chunks : List (List (ℕ × Block))) :
    ∀ bs, chunks.foldl deleteListed bs =
      bs.filter (fun b => chunks.all (fun c => ¬ (b.1 ∈ c.map Prod.fst))) := by
  induction chunks with
  | nil =>
      intro bs
      simp
  | cons c cs ih =>
      intro bs
      rw [List.foldl_cons, ih, deleteListed, List.filter_filter]
      refine List.filter_congr fun b _ => ?_
      simp [Bool.and_comm]

/-- The pagination loop of `replace_page_content` deletes every existing
block. -/
theorem deleteAll (n : ℕ) (blocks : List (ℕ × Block)) :
    (chunksOf n blocks).foldl deleteListed blocks = [] := by
  rw [foldl_deleteListed]
  refine List.filter_eq_nil_iff.mpr fun b hb => ?_
  have hjoin : b ∈ (chunksOf n blocks).flatten := by
    rw [chunksOf_join]; exact hb
  rcases List.mem_flatten.mp hjoin with ⟨c, hc, hbc⟩
  simp only [List.all_eq_true, decide_eq_true_eq, Bool.not_eq_true]
  intro hall
  exact absurd (List.mem_map_of_mem Prod.fst hbc) (by simpa using hall c hc)

theorem withIds_map_snd (base : ℕ) (bs : List Block) :
    (withIds base bs).map Prod.snd = bs := by
  unfold withIds
  rw [List.map_map]
  exact List.enum_map_snd bs

/-- **C9.** With rebuild requested on an existing page, the update touches
only the `Date` property (start = localized parsed timestamp, end = start
plus duration), leaves every other property unchanged, and fully replaces
the content blocks (deleting all children across pagination rounds, then
appending freshly built blocks), so the resulting block sequence equals a
from-scratch build of the same workout. -/
theorem c9_update_workout (n : ℕ) (page : Page) (w : WorkoutRec) :
    alookup (updateWorkout n page w).props "Date" =
      some (.dateRange (startTs w.date) (some (startTs w.date + w.durationSec))) ∧
    (∀ k, k ≠ "Date" → alookup (updateWorkout n page w).props k = alookup page.props k) ∧
    (updateWorkout n page w).blocks.map Prod.snd = buildPageContent w.exercises ∧
    (∀ pid, (updateWorkout n page w).blocks.map Prod.snd =
      (createPage pid w).blocks.map Prod.snd) := by
  refine ⟨alookup_setK_self _ _ _, fun k hk => alookup_setK_ne _ _ _ _ hk, ?_, ?_⟩
  · show (replacePageContent n page.blocks (buildPageContent w.exercises)).map Prod.snd = _
    rw [replacePageContent, deleteAll, List.nil_append, withIds_map_snd]
  · intro pid
    show (replacePageContent n page.blocks (buildPageContent w.exercises)).map Prod.snd = _
    rw [replacePageContent, deleteAll, List.nil_append, withIds_map_snd]
    exact (withIds_map_snd 0 _).symm

/-! ## Existence checks (`workout_exists`, `exercise_entry_exists`) -/

/-- `workout_exists` applied to the remote query response: the
`try/except` catches any exception, logs it, and returns `None`;
otherwise the first result, or `None` when the result set is empty. -/
def workoutExistsResp (resp : Except String (List Page)) : Option Page :=
  match resp with
  | .error _ => none
  | .ok results => results.head?

/-- `exercise_entry_exists` applied to the remote query response: there is
no exception handler, so an exception propagates; otherwise the first
result, or `None` when the result set is empty. -/
def exerciseEntryExistsResp {α : Type} (resp : Except String (List α)) :
    Except String (Option α) :=
  resp.map List.head?

/-- One aggregation-table row: key (exercise name, `%Y-%m-%d` date) and
the written property dict.  The key encodes the query's exact
title-equals plus day-level date filter. -/
abbrev AggRow : Type := (String × String) × List (String × PropValue)

/-- Does a page's `Garmin ID` multi-select contain the stable id? -/
def pageMatchesId (sid : String) (p : Page) : Bool :=
  match alookup p.props "Garmin ID" with
  | some (.multiSelect tags) => tags.contains sid
  | _ => false

/-- The primary-table query filtered on `Garmin ID` containing the id. -/
def queryWorkout (pages : List Page) (sid : String) : List Page :=
  pages.filter (pageMatchesId sid)

/-- `workout_exists` against the pure store (no exception occurs). -/
def workoutExistsS (pages : List Page) (sid : String) : Option Page :=
  workoutExistsResp (.ok (queryWorkout pages sid))

/-- The aggregation-table query on (exercise name, day). -/
def queryAgg (m : List AggRow) (k : String × String) : List AggRow :=
  m.filter (fun e => e.1 = k)

/-- `exercise_entry_exists` against the pure store. -/
def exerciseEntryExistsS (m : List AggRow) (k : String × String) :
    Except String (Option AggRow) :=
  exerciseEntryExistsResp (.ok (queryAgg m k))

/-- The create/update/skip decision of the main loop (lines 378-391). -/
inductive WAction where
  | create
  | update
  | skip
deriving DecidableEq, Repr

def decideAction (existing : Option Page) (rebuild : Bool) : WAction :=
  match existing with
  | some _ => if rebuild then .update else .skip
  | none => .create

/-! ## Claim C3: exception handling of the existence checks -/

/-- **C3 counterexample.** An exception during the aggregation-row
existence check is not caught: it propagates instead of being treated as
"no match found". -/
theorem c3_counterexample :
    exerciseEntryExistsResp (α := AggRow) (.error "network error") = .error "network error" ∧
    (Except.error "network error" : Except String (Option AggRow)) ≠ .ok none := by
  exact ⟨rfl, by simp⟩

/-- **C3 (amended: only the per-workout check catches).** An exception in
the per-workout existence check is caught and yields `None`, so the main
loop takes the create branch; an exception in the per-(exercise, date)
aggregation-row check propagates unhandled. -/
theorem c3_exception_handling :
    (∀ e : String, workoutExistsResp (.error e) = none) ∧
    (∀ (e : String) (rebuild : Bool),
      decideAction (workoutExistsResp (.error e)) rebuild = .create) ∧
    (∀ e : String, exerciseEntryExistsResp (α := AggRow) (.error e) = .error e) := by
  exact ⟨fun _ => rfl, fun _ _ => rfl, fun _ => rfl⟩

/-! ## Aggregation (`sync_exercise_entries`) -/

/-- `float(s["weight_kg"]) if s["weight_kg"] else 0`. -/
def weightOfSet (s : ExRow) : ℚ := s.weightKg.getD 0

/-- `int(s["reps"]) if s["reps"] else 0`. -/
def repsOfSet (s : ExRow) : ℤ := if s.reps = "" then 0 else pyInt s.reps

/-- The accumulation loop of `sync_exercise_entries` (lines 311-320):
running maximum weight, total volume, total reps. -/
def aggStats (sets : List ExRow) : ℚ × ℚ × ℤ :=
  sets.foldl (fun acc s =>
    (max acc.1 (weightOfSet s),
     acc.2.1 + weightOfSet s * (repsOfSet s : ℚ),
     acc.2.2 + repsOfSet s)) (0, 0, 0)

/-- The property dict written per aggregation row (lines 322-330). -/
def entryProps (w : WorkoutRec) (name : String) (sets : List ExRow) :
    List (String × PropValue) :=
  [("Exercise", .title name),
   ("Date", .dateRange (startTs w.date) none),
   ("Max Weight", .number (aggStats sets).1),
   ("Total Volumn", .number (pyRound1 (aggStats sets).2.1)),
   ("Sets", .number (sets.length : ℚ)),
   ("Total Reps", .number (((aggStats sets).2.2 : ℤ) : ℚ)),
   ("Workouts", .richText w.name)]

/-- The aggregation writes one workout produces: one keyed row per
exercise group with at least one set (`if not sets: continue`). -/
def aggWritesFor (w : WorkoutRec) : List AggRow :=
  (groupExercises w.exercises).filterMap (fun e =>
    if e.2.sets = [] then none
    else some ((e.1, dateOnlyOf w.date), entryProps w e.1 e.2.sets))

/-- Update-else-create of one aggregation row (lines 332-340); the flag
records whether a create happened. -/
def applyEntry (m : List AggRow) (e : AggRow) : List AggRow × Bool :=
  match (queryAgg m e.1).head? with
  | some _ => (updK m e.1 (fun _ => e.2), false)
  | none => (m ++ [e], true)

theorem exerciseEntryExistsS_eq (m : List AggRow) (k : String × String) :
    exerciseEntryExistsS m k = .ok ((queryAgg m k).head?) := rfl

theorem queryAgg_head_none (m : List AggRow) (k : String × String) :
    (queryAgg m k).head? = none ↔ k ∉ keysOf m := by
  induction m with
  | nil => simp [queryAgg, keysOf]
  | cons e t ih =>
      by_cases h : e.1 = k
      · simp [queryAgg, List.filter_cons, h, keysOf_cons]
      · have hfil : queryAgg (e :: t) k = queryAgg t k := by
          simp [queryAgg, List.filter_cons, h]
        rw [hfil, ih, keysOf_cons]
        constructor
        · intro hk hmem
          rcases List.mem_cons.mp hmem with hh | hh
          · exact h hh.symm
          · exact hk hh
        · intro hk hmem
          exact hk (List.mem_cons_of_mem _ hmem)

theorem alookup_applyEntry (m : List AggRow) (e : AggRow) (k : String × String) :
    alookup (applyEntry m e).1 k = if e.1 = k then some e.2 else alookup m k := by
  cases hq : (queryAgg m e.1).head? with
  | none =>
      have habs : e.1 ∉ keysOf m := (queryAgg_head_none m e.1).mp hq
      rw [applyEntry, hq]
      by_cases hk : e.1 = k
      · subst hk
        simp [alookup_append, alookup_eq_none m e.1 habs, alookup]
      · rw [if_neg hk, alookup_append]
        have hkk : ¬ e.1 = k := hk
        cases hx : alookup m k with
        | some w => simp [hx]
        | none => simp [hx, alookup, hkk]
  | some p =>
      have hmem : e.1 ∈ keysOf m := by
        by_contra habs
        rw [(queryAgg_head_none m e.1).mpr habs] at hq
        exact Option.noConfusion hq
      rw [applyEntry, hq]
      by_cases hk : e.1 = k
      · subst hk
        rw [if_pos rfl]
        rw [alookup_updK_self m e.1 _ hmem]
        rcases Option.isSome_iff_exists.mp (alookup_isSome m e.1 hmem) with ⟨w, hw⟩
        simp [hw]
      · rw [if_neg hk, alookup_updK_ne m e.1 k _ (fun hh => hk hh.symm)]

theorem keysOf_applyEntry (m : List AggRow) (e : AggRow) :
    keysOf (applyEntry m e).1 =
      if e.1 ∈ keysOf m then keysOf m else keysOf m ++ [e.1] := by
  cases hq : (queryAgg m e.1).head? with
  | none =>
      have habs : e.1 ∉ keysOf m := (queryAgg_head_none m e.1).mp hq
      rw [applyEntry, hq, if_neg habs, keysOf_append]
      rfl
  | some p =>
      have hmem : e.1 ∈ keysOf m := by
        by_contra habs
        rw [(queryAgg_head_none m e.1).mpr habs] at hq
        exact Option.noConfusion hq
      rw [applyEntry, hq, if_pos hmem, keysOf_updK]

theorem mem_keysOf_applyEntry (m : List AggRow) (e : AggRow) (k : String × String)
    (h : k ∈ keysOf m) : k ∈ keysOf (applyEntry m e).1 := by
  rw [keysOf_applyEntry]
  by_cases hm : e.1 ∈ keysOf m
  · rw [if_pos hm]
    exact h
  · rw [if_neg hm]
    exact List.mem_append_left _ h

theorem self_mem_keysOf_applyEntry (m : List AggRow) (e : AggRow) :
    e.1 ∈ keysOf (applyEntry m e).1 := by
  rw [keysOf_applyEntry]
  by_cases hm : e.1 ∈ keysOf m
  · rw [if_pos hm]
    exact hm
  · rw [if_neg hm]
    exact List.mem_append_right _ (List.mem_singleton.mpr rfl)

theorem applyEntry_snd_false (m : List AggRow) (e : AggRow) :
    (applyEntry m e).2 = false ↔ e.1 ∈ keysOf m := by
  cases hq : (queryAgg m e.1).head? with
  | none =>
      have habs : e.1 ∉ keysOf m := (queryAgg_head_none m e.1).mp hq
      simp [applyEntry, hq, habs]
  | some p =>
      have hmem : e.1 ∈ keysOf m := by
        by_contra habs
        rw [(queryAgg_head_none m e.1).mpr habs] at hq
        exact Option.noConfusion hq
      simp [applyEntry, hq, hmem]

/-! ## Claim C8: aggregation row contents -/

/-- Claim-shaped maximum: the set weights (absent counted 0) folded into
the loop's starting value 0. -/
def specMaxWeight (sets : List ExRow) : ℚ :=
  sets.foldr (fun s m => max (weightOfSet s) m) 0

/-- Claim-shaped volume: sum over sets of weight times reps. -/
def specVolume (sets : List ExRow) : ℚ :=
  (sets.map (fun s => weightOfSet s * (repsOfSet s : ℚ))).sum

/-- Claim-shaped total reps: sum of reps (absent counted 0). -/
def specTotalReps (sets : List ExRow) : ℤ :=
  (sets.map repsOfSet).sum

theorem aggStats_general (sets : List ExRow) :
    ∀ (a b : ℚ) (c : ℤ), 0 ≤ a →
      sets.foldl (fun acc s =>
        (max acc.1 (weightOfSet s),
         acc.2.1 + weightOfSet s * (repsOfSet s : ℚ),
         acc.2.2 + repsOfSet s)) (a, b, c) =
      (max a (specMaxWeight sets), b + specVolume sets, c + specTotalReps sets) := by
  induction sets with
  | nil =>
      intro a b c ha
      simp [specMaxWeight, specVolume, specTotalReps, max_eq_left ha]
  | cons s t ih =>
      intro a b c ha
      rw [List.foldl_cons, ih _ _ _ (le_max_of_le_left ha)]
      simp [specMaxWeight, specVolume, specTotalReps, max_assoc, add_assoc]

theorem specMaxWeight_nonneg (sets : List ExRow) : 0 ≤ specMaxWeight sets := by
  induction sets with
  | nil => exact le_rfl
  | cons s t ih => exact le_max_of_le_right ih

theorem aggStats_eq_spec (sets : List ExRow) :
    aggStats sets = (specMaxWeight sets, specVolume sets, specTotalReps sets) := by
  unfold aggStats
  rw [aggStats_general sets 0 0 0 le_rfl]
  simp [max_eq_right (specMaxWeight_nonneg sets)]

/-- `filterMap` with an if-guard is filter-then-map. -/
theorem filterMap_guard {α β : Type} (p : α → Prop) [DecidablePred p] (g : α → β)
    (l : List α) :
    l.filterMap (fun a => if p a then none else some (g a)) =
      (l.filter (fun a => ¬ p a)).map g := by
  induction l with
  | nil => rfl
  | cons a t ih =>
      by_cases hp : p a
      · simp [List.filterMap_cons, List.filter_cons, hp, ih]
      · simp [List.filterMap_cons, List.filter_cons, hp, ih]

theorem applyEntry_of_not_mem (m : List AggRow) (e : AggRow) (h : e.1 ∉ keysOf m) :
    applyEntry m e = (m ++ [e], true) := by
  rw [applyEntry, (queryAgg_head_none m e.1).mpr h]

theorem applyEntry_of_mem (m : List AggRow) (e : AggRow) (h : e.1 ∈ keysOf m) :
    applyEntry m e = (updK m e.1 (fun _ => e.2), false) := by
  cases hq : (queryAgg m e.1).head? with
  | none => exact absurd ((queryAgg_head_none m e.1).mp hq) (by simpa using h)
  | some p => rw [applyEntry, hq]

/-- The two-set example of the aggregation claim. -/
def exampleRowSets : List ExRow :=
  [⟨"Row", "1", some 0, "500", none, none, ""⟩,
   ⟨"Row", "2", some 0, "480", none, none, ""⟩]

/-- Example workout carrying the two-set rowing exercise. -/
def exampleWorkout : WorkoutRec :=
  ⟨"2024-01-05 18:00:00", "Pull Day", 3600, exampleRowSets⟩

/-- The claim's literal max-weight: the maximum of the set weights
themselves (absent counted 0), with no floor at 0. -/
def claimMaxWeight : List ExRow → ℚ
  | [] => 0
  | s :: t => t.foldl (fun m x => max m (weightOfSet x)) (weightOfSet s)

/-- Single negative-weight set on which the written row diverges from the
claimed values. -/
def badSet : ExRow := ⟨"Bench", "1", some (-31/25), "1", none, none, ""⟩

/-- Workout wrapping `badSet`. -/
def badWorkout : WorkoutRec := ⟨"2024-02-03 10:00:00", "Push Day", 1800, [badSet]⟩

/-- **C8 counterexample.** For a set with weight -1.24 and one rep, the
claim demands max weight -1.24 and total volume -1.24, but the written
row has max weight 0 (the running maximum starts at 0) and total volume
-1.2 (the sum is rounded to one decimal before writing). -/
theorem c8_counterexample :
    claimMaxWeight [badSet] = -31/25 ∧
    specVolume [badSet] = -31/25 ∧
    alookup (entryProps badWorkout "Bench" [badSet]) "Max Weight" =
      some (.number 0) ∧
    alookup (entryProps badWorkout "Bench" [badSet]) "Total Volumn" =
      some (.number (-6/5)) ∧
    (0 : ℚ) ≠ -31/25 ∧ (-6/5 : ℚ) ≠ -31/25 := by
  have h1 : pyInt "1" = 1 := by decide
  refine ⟨?_, ?_, ?_, ?_, by norm_num, by norm_num⟩
  · simp [claimMaxWeight, badSet, weightOfSet]
  · simp [specVolume, badSet, weightOfSet, repsOfSet, h1]
  · simp [entryProps, alookup, aggStats, badSet, weightOfSet, repsOfSet, h1]
    norm_num
  · simp [entryProps, alookup, aggStats, badSet, weightOfSet, repsOfSet, h1]
    all_goals norm_num [pyRound1, roundHE]

/-- **C8 (amended: the written max weight is the running maximum started
at 0, i.e. `max 0 (set weights)`, and the written volume is the sum of
weight times reps rounded half-to-even to one decimal).** One row is
written per exercise group with at least one real set — note-only groups
write nothing — carrying max weight, rounded volume, total reps (absent
counted 0) and the set count; the row is looked up by exact
(exercise name, date) key, updated in place when found (keys unchanged,
value replaced) and created otherwise; the two-set example yields max
weight 0, total volume 0, total reps 980, sets 2. -/
theorem c8_aggregation :
    (∀ w : WorkoutRec, aggWritesFor w =
      ((groupExercises w.exercises).filter (fun e => ¬ (e.2.sets = []))).map (fun e =>
        ((e.1, dateOnlyOf w.date),
         [("Exercise", PropValue.title e.1),
          ("Date", PropValue.dateRange (startTs w.date) none),
          ("Max Weight", PropValue.number (specMaxWeight e.2.sets)),
          ("Total Volumn", PropValue.number (pyRound1 (specVolume e.2.sets))),
          ("Sets", PropValue.number (e.2.sets.length : ℚ)),
          ("Total Reps", PropValue.number ((specTotalReps e.2.sets : ℤ) : ℚ)),
          ("Workouts", PropValue.richText w.name)]))) ∧
    (∀ (m : List AggRow) (e : AggRow), alookup (applyEntry m e).1 e.1 = some e.2) ∧
    (∀ (m : List AggRow) (e : AggRow), e.1 ∈ keysOf m →
      applyEntry m e = (updK m e.1 (fun _ => e.2), false) ∧
        keysOf (applyEntry m e).1 = keysOf m) ∧
    (∀ (m : List AggRow) (e : AggRow), e.1 ∉ keysOf m →
      applyEntry m e = (m ++ [e], true)) ∧
    alookup (entryProps exampleWorkout "Row" exampleRowSets) "Max Weight" =
      some (.number 0) ∧
    alookup (entryProps exampleWorkout "Row" exampleRowSets) "Total Volumn" =
      some (.number 0) ∧
    alookup (entryProps exampleWorkout "Row" exampleRowSets) "Total Reps" =
      some (.number 980) ∧
    alookup (entryProps exampleWorkout "Row" exampleRowSets) "Sets" =
      some (.number 2) := by
  have h500 : pyInt "500" = 500 := by decide
  have h480 : pyInt "480" = 480 := by decide
  refine ⟨?_, ?_, ?_, ?_, ?_, ?_, ?_, ?_⟩
  · intro w
    rw [aggWritesFor, filterMap_guard]
    refine List.map_congr_left fun e _ => ?_
    simp [entryProps, aggStats_eq_spec]
  · intro m e
    rw [alookup_applyEntry, if_pos rfl]
  · intro m e h
    exact ⟨applyEntry_of_mem m e h, by rw [keysOf_applyEntry, if_pos h]⟩
  · intro m e h
    exact applyEntry_of_not_mem m e h
  · simp [entryProps, alookup, aggStats, exampleRowSets, weightOfSet, repsOfSet,
      h500, h480]
  · simp [entryProps, alookup, aggStats, exampleRowSets, weightOfSet, repsOfSet,
      h500, h480]
    all_goals norm_num [pyRound1, roundHE]
  · simp [entryProps, alookup, aggStats, exampleRowSets, weightOfSet, repsOfSet,
      h500, h480]
  · simp [entryProps, alookup, exampleRowSets]

/-! ## Claim C10: aggregation keys vs the auto-created schema -/

/-- The fixed schema of the auto-created "Exercise Progress" database
(`get_or_create_exercise_db`, lines 266-274), as property name and type. -/
def exerciseDbSchemaProps : List (String × String) :=
  [("Exercise", "title"),
   ("Date", "date"),
   ("Max Weight (kg)", "number"),
   ("Total Volume (kg)", "number"),
   ("Sets", "number"),
   ("Total Reps", "number"),
   ("Workout", "rich_text")]

/-- Result of `get_or_create_exercise_db`. -/
inductive ExDbResult where
  | existing (id : String)
  | created (schema : List (String × String))
  | disabled
deriving DecidableEq, Repr

/-- `get_or_create_exercise_db`: use the configured id when set; otherwise
auto-create the sibling table only when the activities database's parent
is a plain page, else report and disable aggregation. -/
def getOrCreateExerciseDb (envVal : Option String) (parentIsPage : Bool) : ExDbResult :=
  if truthy envVal then .existing (envVal.getD "")
  else if parentIsPage then .created exerciseDbSchemaProps
  else .disabled

/-- **C10 (code bug).** The aggregation sync writes the keys `Exercise`,
`Date`, `Max Weight`, `Total Volumn`, `Sets`, `Total Reps`, `Workouts`,
but the schema the engine itself provisions declares `Max Weight (kg)`,
`Total Volume (kg)` and `Workout` instead — three written keys name no
declared property, contradicting the engine's own provisioning. -/
theorem c10_schema_mismatch :
    (∀ (w : WorkoutRec) (name : String) (sets : List ExRow),
      (entryProps w name sets).map Prod.fst =
        ["Exercise", "Date", "Max Weight", "Total Volumn", "Sets", "Total Reps",
         "Workouts"]) ∧
    getOrCreateExerciseDb none true = .created exerciseDbSchemaProps ∧
    ("Max Weight" ∉ exerciseDbSchemaProps.map Prod.fst) ∧
    ("Total Volumn" ∉ exerciseDbSchemaProps.map Prod.fst) ∧
    ("Workouts" ∉ exerciseDbSchemaProps.map Prod.fst) := by
  exact ⟨fun w name sets => rfl, rfl, by decide, by decide, by decide⟩

/-! ## The main sync loop (`main`, lines 378-395) -/

/-- Counters of the run (`created`, `rebuilt`, `skipped`, and the
aggregation writes split by outcome). -/
structure Counters where
  created : ℕ
  updated : ℕ
  skipped : ℕ
  aggCreated : ℕ
  aggUpdated : ℕ
deriving DecidableEq, Repr

/-- All-zero counters at the start of a run. -/
def c0 : Counters := ⟨0, 0, 0, 0, 0⟩

/-- The remote state: the primary table's pages and the aggregation
table's rows. -/
structure Store where
  pages : List Page
  agg : List AggRow
deriving DecidableEq, Repr

/-- Fresh page id for a created page. -/
def freshId (pages : List Page) : ℕ :=
  (pages.map Page.id).foldr max 0 + 1

/-- Per-workout create/skip/update against the primary table
(`psize` is the block-listing page size less one, used on rebuild). -/
def stepPages (psize : ℕ) (rebuild : Bool) (sc : Store × Counters) (w : WorkoutRec) :
    Store × Counters :=
  match workoutExistsS sc.1.pages (strongId w.date), rebuild with
  | some p, true =>
      (⟨sc.1.pages.map (fun q => if q.id = p.id then updateWorkout psize q w else q),
        sc.1.agg⟩,
       { sc.2 with updated := sc.2.updated + 1 })
  | some _, false => (sc.1, { sc.2 with skipped := sc.2.skipped + 1 })
  | none, _ =>
      (⟨sc.1.pages ++ [createPage (freshId sc.1.pages) w], sc.1.agg⟩,
       { sc.2 with created := sc.2.created + 1 })

/-- Per-workout aggregation sync (`sync_exercise_entries`), executed only
when the aggregation database is available. -/
def stepAgg (aggEnabled : Bool) (sc : Store × Counters) (w : WorkoutRec) :
    Store × Counters :=
  if aggEnabled then
    (aggWritesFor w).foldl (fun acc e =>
      (⟨acc.1.pages, (applyEntry acc.1.agg e).1⟩,
       if (applyEntry acc.1.agg e).2 then
         { acc.2 with aggCreated := acc.2.aggCreated + 1 }
       else { acc.2 with aggUpdated := acc.2.aggUpdated + 1 })) sc
  else sc

/-- One iteration of the main loop: upsert the workout page, then always
run the aggregation sync when available. -/
def stepW (psize : ℕ) (rebuild aggEnabled : Bool) (sc : Store × Counters)
    (w : WorkoutRec) : Store × Counters :=
  stepAgg aggEnabled (stepPages psize rebuild sc w) w

/-- The main loop over all parsed workouts. -/
def runSync (psize : ℕ) (rebuild aggEnabled : Bool) (ws : List WorkoutRec) (s : Store) :
    Store × Counters :=
  ws.foldl (stepW psize rebuild aggEnabled) (s, c0)

/-! ### Aggregation write sequences -/

/-- Apply a sequence of aggregation writes to the table. -/
def applySeqM : List AggRow → List AggRow → List AggRow
  | [], m => m
  | e :: σ, m => applySeqM σ (applyEntry m e).1

/-- Creates performed by a write sequence. -/
def applySeqCreated : List AggRow → List AggRow → ℕ
  | [], _ => 0
  | e :: σ, m => (if (applyEntry m e).2 then 1 else 0) + applySeqCreated σ (applyEntry m e).1

/-- In-place updates performed by a write sequence. -/
def applySeqUpdated : List AggRow → List AggRow → ℕ
  | [], _ => 0
  | e :: σ, m => (if (applyEntry m e).2 then 0 else 1) + applySeqUpdated σ (applyEntry m e).1

/-- Last value written for a key by a write sequence. -/
def lastVal : List AggRow → (String × String) → Option (List (String × PropValue))
  | [], _ => none
  | e :: σ, k =>
      match lastVal σ k with
      | some v => some v
      | none => if e.1 = k then some e.2 else none

theorem applySeqM_append (σ₁ σ₂ : List AggRow) :
    ∀ m, applySeqM (σ₁ ++ σ₂) m = applySeqM σ₂ (applySeqM σ₁ m) := by
  induction σ₁ with
  | nil => intro m; rfl
  | cons e σ ih => intro m; simp [applySeqM, ih]

theorem applySeqCreated_append (σ₁ σ₂ : List AggRow) :
    ∀ m, applySeqCreated (σ₁ ++ σ₂) m =
      applySeqCreated σ₁ m + applySeqCreated σ₂ (applySeqM σ₁ m) := by
  induction σ₁ with
  | nil => intro m; simp [applySeqCreated, applySeqM]
  | cons e σ ih => intro m; simp [applySeqCreated, applySeqM, ih, Nat.add_assoc]

theorem applySeqUpdated_append (σ₁ σ₂ : List AggRow) :
    ∀ m, applySeqUpdated (σ₁ ++ σ₂) m =
      applySeqUpdated σ₁ m + applySeqUpdated σ₂ (applySeqM σ₁ m) := by
  induction σ₁ with
  | nil => intro m; simp [applySeqUpdated, applySeqM]
  | cons e σ ih => intro m; simp [applySeqUpdated, applySeqM, ih, Nat.add_assoc]

theorem applySeq_count (σ : List AggRow) :
    ∀ m, applySeqCreated σ m + applySeqUpdated σ m = σ.length := by
  induction σ with
  | nil => intro m; rfl
  | cons e σ ih =>
      intro m
      by_cases h : (applyEntry m e).2 <;>
        simp [applySeqCreated, applySeqUpdated, h, ih, Nat.add_comm, Nat.add_assoc,
          Nat.add_left_comm]

theorem mem_keysOf_applySeqM (σ : List AggRow) :
    ∀ (m : List AggRow) (k : String × String), k ∈ keysOf m →
      k ∈ keysOf (applySeqM σ m) := by
  induction σ with
  | nil => intro m k h; exact h
  | cons e σ ih =>
      intro m k h
      exact ih _ _ (mem_keysOf_applyEntry m e k h)

theorem writes_mem_keysOf_applySeqM (σ : List AggRow) :
    ∀ (m : List AggRow) (e : AggRow), e ∈ σ → e.1 ∈ keysOf (applySeqM σ m) := by
  induction σ with
  | nil => intro m e h; exact absurd h (List.not_mem_nil e)
  | cons x σ ih =>
      intro m e h
      rcases List.mem_cons.mp h with h | h
      · subst h
        exact mem_keysOf_applySeqM σ _ _ (self_mem_keysOf_applyEntry m e)
      · exact ih _ _ h

theorem applySeqCreated_zero (σ : List AggRow) :
    ∀ m, (∀ e ∈ σ, e.1 ∈ keysOf m) → applySeqCreated σ m = 0 := by
  induction σ with
  | nil => intro m _; rfl
  | cons e σ ih =>
      intro m h
      have he : e.1 ∈ keysOf m := h e (List.mem_cons_self e σ)
      have hsnd : (applyEntry m e).2 = false := (applyEntry_snd_false m e).mpr he
      rw [applySeqCreated, hsnd]
      have h0 : (if (false : Bool) = true then (1 : ℕ) else 0) = 0 := by simp
      rw [h0, Nat.zero_add]
      exact ih _ fun x hx => mem_keysOf_applyEntry m e x.1 (h x (List.mem_cons_of_mem e hx))

theorem alookup_applySeqM (σ : List AggRow) :
    ∀ (m : List AggRow) (k : String × String),
      alookup (applySeqM σ m) k = (lastVal σ k).orElse (fun _ => alookup m k) := by
  induction σ with
  | nil => intro m k; simp [applySeqM, lastVal]
  | cons e σ ih =>
      intro m k
      rw [applySeqM, ih, lastVal]
      cases hl : lastVal σ k with
      | some v => simp [hl]
      | none =>
          simp only [hl, Option.none_orElse]
          rw [alookup_applyEntry]
          by_cases hk : e.1 = k
          · simp [hk]
          · simp [hk]

/-- Re-applying the same write sequence leaves every lookup unchanged. -/
theorem applySeqM_idem_lookup (σ : List AggRow) (m : List AggRow) (k : String × String) :
    alookup (applySeqM σ (applySeqM σ m)) k = alookup (applySeqM σ m) k := by
  rw [alookup_applySeqM, alookup_applySeqM]
  cases hl : lastVal σ k with
  | some v => simp [hl]
  | none => simp [hl, alookup_applySeqM, hl]

/-! ### Run decomposition -/

/-- All aggregation writes of a run, in order. -/
def aggSeq (ws : List WorkoutRec) : List AggRow :=
  (ws.map aggWritesFor).flatten

theorem stepAgg_foldl (σ : List AggRow) :
    ∀ (st : Store × Counters),
      σ.foldl (fun acc e =>
        (⟨acc.1.pages, (applyEntry acc.1.agg e).1⟩,
         if (applyEntry acc.1.agg e).2 then
           { acc.2 with aggCreated := acc.2.aggCreated + 1 }
         else { acc.2 with aggUpdated := acc.2.aggUpdated + 1 })) st =
      (⟨st.1.pages, applySeqM σ st.1.agg⟩,
       { st.2 with aggCreated := st.2.aggCreated + applySeqCreated σ st.1.agg,
                   aggUpdated := st.2.aggUpdated + applySeqUpdated σ st.1.agg }) := by
  induction σ with
  | nil =>
      intro st
      simp [applySeqM, applySeqCreated, applySeqUpdated]
  | cons e σ ih =>
      intro st
      rw [List.foldl_cons, ih]
      by_cases h : (applyEntry st.1.agg e).2 <;>
        simp [applySeqM, applySeqCreated, applySeqUpdated, h, Nat.add_assoc]

theorem stepAgg_spec (sc : Store × Counters) (w : WorkoutRec) :
    stepAgg true sc w =
      (⟨sc.1.pages, applySeqM (aggWritesFor w) sc.1.agg⟩,
       { sc.2 with
           aggCreated := sc.2.aggCreated + applySeqCreated (aggWritesFor w) sc.1.agg,
           aggUpdated := sc.2.aggUpdated + applySeqUpdated (aggWritesFor w) sc.1.agg }) := by
  rw [show stepAgg true sc w = (aggWritesFor w).foldl (fun acc e =>
      (⟨acc.1.pages, (applyEntry acc.1.agg e).1⟩,
       if (applyEntry acc.1.agg e).2 then
         { acc.2 with aggCreated := acc.2.aggCreated + 1 }
       else { acc.2 with aggUpdated := acc.2.aggUpdated + 1 })) sc from rfl]
  exact stepAgg_foldl (aggWritesFor w) sc

theorem stepPages_agg (psize : ℕ) (rebuild : Bool) (sc : Store × Counters)
    (w : WorkoutRec) : (stepPages psize rebuild sc w).1.agg = sc.1.agg := by
  cases h : workoutExistsS sc.1.pages (strongId w.date) with
  | some p => cases rebuild <;> simp [stepPages, h]
  | none => simp [stepPages, h]

theorem stepPages_aggCounters (psize : ℕ) (rebuild : Bool) (sc : Store × Counters)
    (w : WorkoutRec) :
    (stepPages psize rebuild sc w).2.aggCreated = sc.2.aggCreated ∧
    (stepPages psize rebuild sc w).2.aggUpdated = sc.2.aggUpdated := by
  cases h : workoutExistsS sc.1.pages (strongId w.date) with
  | some p => cases rebuild <;> simp [stepPages, h]
  | none => simp [stepPages, h]

theorem stepPages_of_some (psize : ℕ) (sc : Store × Counters) (w : WorkoutRec)
    (p : Page) (h : workoutExistsS sc.1.pages (strongId w.date) = some p) :
    stepPages psize false sc w = (sc.1, { sc.2 with skipped := sc.2.skipped + 1 }) := by
  simp [stepPages, h]

theorem stepPages_of_none (psize : ℕ) (sc : Store × Counters) (w : WorkoutRec)
    (h : workoutExistsS sc.1.pages (strongId w.date) = none) :
    stepPages psize false sc w =
      (⟨sc.1.pages ++ [createPage (freshId sc.1.pages) w], sc.1.agg⟩,
       { sc.2 with created := sc.2.created + 1 }) := by
  simp [stepPages, h]

theorem createPage_matches (pid : ℕ) (w : WorkoutRec) :
    pageMatchesId (strongId w.date) (createPage pid w) = true := by
  have hl : alookup (createPage pid w).props "Garmin ID" =
      some (.multiSelect [strongId w.date]) := rfl
  simp [pageMatchesId, hl]

theorem workoutExistsS_append_isSome (pages l : List Page) (sid : String)
    (h : (workoutExistsS pages sid).isSome) :
    (workoutExistsS (pages ++ l) sid).isSome := by
  unfold workoutExistsS workoutExistsResp queryWorkout at h ⊢
  rw [List.filter_append]
  cases hx : (pages.filter (pageMatchesId sid)) with
  | nil => rw [hx] at h; simp at h
  | cons a t => simp [hx]

theorem exists_after_stepPages (psize : ℕ) (sc : Store × Counters) (w : WorkoutRec) :
    (workoutExistsS (stepPages psize false sc w).1.pages (strongId w.date)).isSome := by
  cases h : workoutExistsS sc.1.pages (strongId w.date) with
  | some p =>
      rw [stepPages_of_some psize sc w p h]
      simp [h]
  | none =>
      rw [stepPages_of_none psize sc w h]
      show (workoutExistsS (sc.1.pages ++ [createPage (freshId sc.1.pages) w])
        (strongId w.date)).isSome
      unfold workoutExistsS workoutExistsResp queryWorkout at h ⊢
      rw [List.filter_append]
      have hnil : sc.1.pages.filter (pageMatchesId (strongId w.date)) = [] :=
        List.head?_eq_none_iff.mp (by simpa using h)
      rw [hnil, List.nil_append]
      simp [List.filter_cons, createPage_matches]

theorem stepAgg_pages (a : Bool) (sc : Store × Counters) (w : WorkoutRec) :
    (stepAgg a sc w).1.pages = sc.1.pages := by
  cases a with
  | false => rfl
  | true => rw [stepAgg_spec]

theorem exists_mono_stepW (psize : ℕ) (a : Bool) (sc : Store × Counters)
    (w : WorkoutRec) (sid : String) (h : (workoutExistsS sc.1.pages sid).isSome) :
    (workoutExistsS (stepW psize false a sc w).1.pages sid).isSome := by
  rw [stepW, stepAgg_pages]
  cases hx : workoutExistsS sc.1.pages (strongId w.date) with
  | some p =>
      rw [stepPages_of_some psize sc w p hx]
      exact h
  | none =>
      rw [stepPages_of_none psize sc w hx]
      exact workoutExistsS_append_isSome _ _ _ h

theorem exists_after_stepW (psize : ℕ) (a : Bool) (sc : Store × Counters)
    (w : WorkoutRec) :
    (workoutExistsS (stepW psize false a sc w).1.pages (strongId w.date)).isSome := by
  rw [stepW, stepAgg_pages]
  exact exists_after_stepPages psize sc w

theorem runSync_exists_mono (psize : ℕ) (a : Bool) (ws : List WorkoutRec) :
    ∀ (st : Store × Counters) (sid : String), (workoutExistsS st.1.pages sid).isSome →
      (workoutExistsS ((ws.foldl (stepW psize false a) st).1.pages) sid).isSome := by
  induction ws with
  | nil => intro st sid h; exact h
  | cons w ws ih =>
      intro st sid h
      rw [List.foldl_cons]
      exact ih _ _ (exists_mono_stepW psize a st w sid h)

theorem runSync_presence (psize : ℕ) (a : Bool) (ws : List WorkoutRec) :
    ∀ (st : Store × Counters) (w : WorkoutRec), w ∈ ws →
      (workoutExistsS ((ws.foldl (stepW psize false a) st).1.pages)
        (strongId w.date)).isSome := by
  induction ws with
  | nil => intro st w h; exact absurd h (List.not_mem_nil w)
  | cons w' ws ih =>
      intro st w h
      rw [List.foldl_cons]
      rcases List.mem_cons.mp h with h | h
      · subst h
        exact runSync_exists_mono psize a ws _ _ (exists_after_stepW psize a st w)
      · exact ih _ w h

theorem runSync_agg_decomp (psize : ℕ) (ws : List WorkoutRec) :
    ∀ (s : Store) (c : Counters),
      (ws.foldl (stepW psize false true) (s, c)).1.agg = applySeqM (aggSeq ws) s.agg := by
  induction ws with
  | nil => intro s c; simp [aggSeq, applySeqM]
  | cons w ws ih =>
      intro s c
      rw [List.foldl_cons, stepW, stepAgg_spec,
        stepPages_agg psize false (s, c) w, ih]
      rw [show aggSeq (w :: ws) = aggWritesFor w ++ aggSeq ws by
        simp [aggSeq, List.map_cons, List.flatten_cons]]
      rw [applySeqM_append]

theorem runSync_aggCount (psize : ℕ) (ws : List WorkoutRec) :
    ∀ (s : Store) (c : Counters),
      (ws.foldl (stepW psize false true) (s, c)).2.aggCreated +
        (ws.foldl (stepW psize false true) (s, c)).2.aggUpdated =
      c.aggCreated + c.aggUpdated + (aggSeq ws).length := by
  induction ws with
  | nil => intro s c; simp [aggSeq]
  | cons w ws ih =>
      intro s c
      rw [List.foldl_cons, stepW, stepAgg_spec]
      have hagg : (stepPages psize false (s, c) w).1.agg = s.agg :=
        stepPages_agg psize false (s, c) w
      obtain ⟨hc, hu⟩ := stepPages_aggCounters psize false (s, c) w
      rw [hagg]
      have hlen : aggSeq (w :: ws) = aggWritesFor w ++ aggSeq ws := by
        simp [aggSeq, List.map_cons, List.flatten_cons]
      rw [ih]
      simp only [hc, hu, hlen, List.length_append]
      have := applySeq_count (aggWritesFor w) s.agg
      omega

/-- A run over a store that already holds every workout page skips every
workout, leaves the pages untouched, and re-applies all aggregation
writes. -/
theorem runSync_all_present (psize : ℕ) (ws : List WorkoutRec) :
    ∀ (s : Store) (c : Counters),
      (∀ w ∈ ws, (workoutExistsS s.pages (strongId w.date)).isSome) →
      ws.foldl (stepW psize false true) (s, c) =
        (⟨s.pages, applySeqM (aggSeq ws) s.agg⟩,
         { c with skipped := c.skipped + ws.length,
                  aggCreated := c.aggCreated + applySeqCreated (aggSeq ws) s.agg,
                  aggUpdated := c.aggUpdated + applySeqUpdated (aggSeq ws) s.agg }) := by
  induction ws with
  | nil =>
      intro s c _
      simp [aggSeq, applySeqM, applySeqCreated, applySeqUpdated]
  | cons w ws ih =>
      intro s c h
      rcases Option.isSome_iff_exists.mp (h w (List.mem_cons_self w ws)) with ⟨p, hp⟩
      rw [List.foldl_cons, stepW, stepPages_of_some psize (s, c) w p hp, stepAgg_spec]
      have hσ : aggSeq (w :: ws) = aggWritesFor w ++ aggSeq ws := by
        simp [aggSeq, List.map_cons, List.flatten_cons]
      rw [ih (⟨s.pages, applySeqM (aggWritesFor w) s.agg⟩ : Store)
        { c with skipped := c.skipped + 1,
                 aggCreated := c.aggCreated + applySeqCreated (aggWritesFor w) s.agg,
                 aggUpdated := c.aggUpdated + applySeqUpdated (aggWritesFor w) s.agg }
        (fun w' hw' => h w' (List.mem_cons_of_mem w hw'))]
      rw [hσ, applySeqM_append, applySeqCreated_append, applySeqUpdated_append]
      refine congrArg₂ _ rfl ?_
      simp only [Counters.mk.injEq, List.length_cons]
      refine ⟨by trivial, by trivial, by omega, by omega, by omega⟩

/-- **C1.** Running the sync twice on the same parsed workouts without the
rebuild flag (aggregation available): the second run performs zero page
creates and zero aggregation-row creates, skips every workout because
each stable id derived from the date is already present after the first
run, leaves the pages exactly as the first run left them, re-executes the
same number of aggregation writes as the first run, and overwrites every
aggregation row with identical values (every lookup is unchanged). -/
theorem c1_idempotence (psize : ℕ) (ws : List WorkoutRec) (s : Store) :
    ((runSync psize false true ws (runSync psize false true ws s).1).2.created = 0) ∧
    ((runSync psize false true ws (runSync psize false true ws s).1).2.aggCreated = 0) ∧
    ((runSync psize false true ws (runSync psize false true ws s).1).2.skipped =
      ws.length) ∧
    ((runSync psize false true ws (runSync psize false true ws s).1).1.pages =
      (runSync psize false true ws s).1.pages) ∧
    (∀ k, alookup (runSync psize false true ws
        (runSync psize false true ws s).1).1.agg k =
      alookup (runSync psize false true ws s).1.agg k) ∧
    ((runSync psize false true ws (runSync psize false true ws s).1).2.aggCreated +
      (runSync psize false true ws (runSync psize false true ws s).1).2.aggUpdated =
     (runSync psize false true ws s).2.aggCreated +
      (runSync psize false true ws s).2.aggUpdated) ∧
    (∀ w ∈ ws,
      (workoutExistsS (runSync psize false true ws s).1.pages
        (strongId w.date)).isSome) := by
  have hpres : ∀ w ∈ ws,
      (workoutExistsS (runSync psize false true ws s).1.pages
        (strongId w.date)).isSome := by
    intro w hw
    exact runSync_presence psize true ws (s, c0) w hw
  have hrun2 := runSync_all_present psize ws (runSync psize false true ws s).1 c0 hpres
  have hagg1 : (runSync psize false true ws s).1.agg = applySeqM (aggSeq ws) s.agg :=
    runSync_agg_decomp psize ws s c0
  have hkeys : ∀ e ∈ aggSeq ws, e.1 ∈ keysOf (runSync psize false true ws s).1.agg := by
    intro e he
    rw [hagg1]
    exact writes_mem_keysOf_applySeqM (aggSeq ws) s.agg e he
  have hzero : applySeqCreated (aggSeq ws) (runSync psize false true ws s).1.agg = 0 :=
    applySeqCreated_zero (aggSeq ws) _ hkeys
  refine ⟨?_, ?_, ?_, ?_, ?_, ?_, hpres⟩
  · show (List.foldl (stepW psize false true) ((runSync psize false true ws s).1, c0)
      ws).2.created = 0
    rw [hrun2]
    rfl
  · show (List.foldl (stepW psize false true) ((runSync psize false true ws s).1, c0)
      ws).2.aggCreated = 0
    rw [hrun2]
    show c0.aggCreated + applySeqCreated (aggSeq ws) (runSync psize false true ws s).1.agg = 0
    rw [hzero]
    rfl
  · show (List.foldl (stepW psize false true) ((runSync psize false true ws s).1, c0)
      ws).2.skipped = ws.length
    rw [hrun2]
    show c0.skipped + ws.length = ws.length
    simp [c0]
  · show (List.foldl (stepW psize false true) ((runSync psize false true ws s).1, c0)
      ws).1.pages = _
    rw [hrun2]
  · intro k
    show alookup (List.foldl (stepW psize false true)
      ((runSync psize false true ws s).1, c0) ws).1.agg k = _
    rw [hrun2]
    show alookup (applySeqM (aggSeq ws) (runSync psize false true ws s).1.agg) k = _
    rw [hagg1]
    exact applySeqM_idem_lookup (aggSeq ws) s.agg k
  · show (List.foldl (stepW psize false true) ((runSync psize false true ws s).1, c0)
        ws).2.aggCreated +
      (List.foldl (stepW psize false true) ((runSync psize false true ws s).1, c0)
        ws).2.aggUpdated = _
    rw [runSync_aggCount psize ws (runSync psize false true ws s).1 c0]
    show _ = (List.foldl (stepW psize false true) (s, c0) ws).2.aggCreated +
      (List.foldl (stepW psize false true) (s, c0) ws).2.aggUpdated
    rw [runSync_aggCount psize ws s c0]

/-! ## Entry-point configuration checks (claim C2) -/

/-- Environment configuration read by the two entry points. -/
structure Env where
  strongCsvPath : Option String
  notionToken : Option String
  notionDbId : Option String
  notionExerciseDbId : Option String
  googleSAFile : Option String
  googleSAJson : Option String
  driveFolder : Option String
deriving DecidableEq, Repr

/-- Outcome of one sync invocation: process exit status, console output,
final remote state, and counters (all zero when stopping at startup,
since no remote call has been made). -/
structure RunResult where
  exitCode : ℕ
  printed : List String
  store : Store
  counters : Counters
deriving DecidableEq, Repr

def csvMissingMsg : String :=
  "Error: Provide CSV path via --csv argument or STRONG_CSV_PATH env var"

def tokenMissingMsg : String :=
  "Error: NOTION_TOKEN and NOTION_DB_ID environment variables required"

def folderMissingMsg : String :=
  "Error: GOOGLE_DRIVE_FOLDER_ID environment variable not set"

def credsMissingMsg : String :=
  "Error: Set GOOGLE_SERVICE_ACCOUNT_FILE or GOOGLE_SERVICE_ACCOUNT_JSON"

/-- Aggregation is available when a configured id exists or the database
could be auto-created. -/
def aggAvailable (env : Env) (parentIsPage : Bool) : Bool :=
  match getOrCreateExerciseDb env.notionExerciseDbId parentIsPage with
  | .disabled => false
  | _ => true

/-- `main` of the sync entry point: configuration checks, then parse and
run.  Python's bare `return` after the printed error ends the process
with exit status 0. -/
def syncMain (psize : ℕ) (argsCsv : Option String) (rebuild : Bool)
    (parentIsPage : Bool) (env : Env) (rows : List Row) (s : Store) : RunResult :=
  if ¬ truthy (pyOr argsCsv env.strongCsvPath) then ⟨0, [csvMissingMsg], s, c0⟩
  else if ¬ (truthy env.notionToken ∧ truthy env.notionDbId) then
    ⟨0, [tokenMissingMsg], s, c0⟩
  else
    let r := runSync psize rebuild (aggAvailable env parentIsPage)
      ((parseCsv rows).map Prod.snd) s
    ⟨0, [], r.1, r.2⟩

/-- Startup outcome of the fetcher entry point. -/
inductive FetchOutcome where
  | stopped (exitCode : ℕ) (msg : String)
  | proceeds
deriving DecidableEq, Repr

/-- Startup of `download_strong_csv.py`: the folder-id check in `main`,
then the credentials check in `get_drive_service`, both before any Drive
call; each failure prints and exits with `sys.exit(1)`. -/
def downloadStartup (env : Env) : FetchOutcome :=
  if ¬ truthy env.driveFolder then .stopped 1 folderMissingMsg
  else if truthy env.googleSAFile then .proceeds
  else if truthy env.googleSAJson then .proceeds
  else .stopped 1 credsMissingMsg

/-- Environment with nothing configured. -/
def envEmpty : Env := ⟨none, none, none, none, none, none, none⟩

/-- Empty remote store. -/
def store0 : Store := ⟨[], []⟩

/-- **C2 counterexample.** With no configuration at all, the sync entry
point prints the error but exits with status 0, not non-zero. -/
theorem c2_counterexample :
    (syncMain 99 none false false envEmpty [] store0).exitCode = 0 ∧
    (syncMain 99 none false false envEmpty [] store0).printed = [csvMissingMsg] := by
  exact ⟨rfl, rfl⟩

/-- **C2 (amended: the sync entry point prints the error and returns with
exit status 0; only the fetcher exits non-zero).** With required
configuration absent, each entry point prints an error and stops before
any remote call (store untouched, all counters zero); the fetcher exits
with status 1, the sync entry point with status 0. -/
theorem c2_missing_config (psize : ℕ) (argsCsv : Option String)
    (rebuild parentIsPage : Bool) (env : Env) (rows : List Row) (s : Store) :
    (¬ truthy (pyOr argsCsv env.strongCsvPath) →
      syncMain psize argsCsv rebuild parentIsPage env rows s =
        ⟨0, [csvMissingMsg], s, c0⟩) ∧
    (truthy (pyOr argsCsv env.strongCsvPath) →
      ¬ (truthy env.notionToken ∧ truthy env.notionDbId) →
      syncMain psize argsCsv rebuild parentIsPage env rows s =
        ⟨0, [tokenMissingMsg], s, c0⟩) ∧
    (¬ truthy env.driveFolder → downloadStartup env = .stopped 1 folderMissingMsg) ∧
    (truthy env.driveFolder → ¬ truthy env.googleSAFile → ¬ truthy env.googleSAJson →
      downloadStartup env = .stopped 1 credsMissingMsg) := by
  refine ⟨fun h => ?_, fun h1 h2 => ?_, fun h => ?_, fun h1 h2 h3 => ?_⟩
  · rw [syncMain, if_pos h]
  · rw [syncMain, if_neg (by simpa using h1), if_pos h2]
  · rw [downloadStartup, if_pos h]
  · rw [downloadStartup, if_neg (by simpa using h1), if_neg h2, if_neg h3]

/-- Closed instance of the missing-configuration theorem. -/
theorem c2_witness :
    (¬ truthy (pyOr none envEmpty.strongCsvPath)) ∧
    syncMain 99 none false false envEmpty [] store0 = ⟨0, [csvMissingMsg], store0, c0⟩ ∧
    (¬ truthy envEmpty.driveFolder) ∧
    downloadStartup envEmpty = .stopped 1 folderMissingMsg :=
  ⟨by decide,
   (c2_missing_config 99 none false false envEmpty [] store0).1 (by decide),
   by decide,
   (c2_missing_config 99 none false false envEmpty [] store0).2.2.1 (by decide)⟩

/-! ## Remaining witnesses -/

/-- Closed instance of the time-format theorem. -/
theorem c6_witness : (0 : ℚ) ≤ 45 ∧ formatTime 45 = formatTimeSpec 45 :=
  ⟨by decide, c6_format_time.1 45 (by decide)⟩

/-- Closed instance of the idempotence theorem. -/
theorem c1_witness :
    (runSync 99 false true [exampleWorkout]
      (runSync 99 false true [exampleWorkout] store0).1).2.created = 0 ∧
    (workoutExistsS (runSync 99 false true [exampleWorkout] store0).1.pages
      (strongId exampleWorkout.date)).isSome :=
  ⟨(c1_idempotence 99 [exampleWorkout] store0).1,
   (c1_idempotence 99 [exampleWorkout] store0).2.2.2.2.2.2 exampleWorkout
     (List.mem_cons_self _ _)⟩

/-- Closed instance of the aggregation theorem's create branch. -/
theorem c8_witness :
    (("Row", "2024-01-05") ∉ keysOf ([] : List AggRow)) ∧
    applyEntry []
        ((("Row", "2024-01-05"), entryProps exampleWorkout "Row" exampleRowSets)) =
      ([(("Row", "2024-01-05"), entryProps exampleWorkout "Row" exampleRowSets)], true) :=
  ⟨by simp [keysOf],
   (c8_aggregation.2.2.2.1)
     [] ((("Row", "2024-01-05"), entryProps exampleWorkout "Row" exampleRowSets))
     (by simp [keysOf])⟩

/-- A concrete page with one non-Date property and one content block. -/
def examplePage : Page := ⟨7, [("Calories", .number 0)], [(0, Block.divider)]⟩

/-- Closed instance of the rebuild-frame theorem. -/
theorem c9_witness :
    (("Calories" : String) ≠ "Date") ∧
    alookup (updateWorkout 99 examplePage exampleWorkout).props "Calories" =
      alookup examplePage.props "Calories" :=
  ⟨by decide,
   (c9_update_workout 99 examplePage exampleWorkout).2.1 "Calories" (by decide)⟩

end StrongSync
